import Mathlib

/-!
Verification development for the auto-assignment and priority core of the
civic-issue reporting backend.  The data model and the operations below are a
shallow embedding of the Python source:

* `app/services/priority.py`        — `calculate_priority_score`, `URGENCY_SCORES`
* `app/services/auto_assignment.py` — `trigger_auto_assignment`, `assign_single_problem`,
                                      `PROBLEM_TYPE_TO_DEPARTMENT`
* `app/routers/admin.py`            — `deactivate_worker`, `reassign_issue_to_worker`

Database rows become Lean structures, the database becomes an explicit
`DBState`, SQLAlchemy queries become list operations, Python floats become
rationals, and a handler that can raise returns `Except`.  `scalar_one_or_none`
is modelled by `oneOrNone` (raising, i.e. `.error`, on more than one row) and
`scalar_one` by `exactlyOne`.  A caught exception that triggers `db.rollback()`
is modelled by returning the unchanged state.
-/

namespace SmartHaryana

deriving instance DecidableEq for Except

/-- Lifecycle states of a report (`ProblemStatusEnum` in `models.py`). -/
inductive ProblemStatus
  | pending
  | assigned
  | completed
  | verified
deriving DecidableEq

/-- User roles (`RoleEnum` in `models.py`). -/
inductive Role
  | client
  | admin
  | worker
  | superAdmin
deriving DecidableEq

/-- Row of the `users` table (fields relevant to the assignment core). -/
structure User where
  id : Nat
  district : String
  role : Role
  is_active : Bool
deriving DecidableEq

/-- Row of the `departments` table. -/
structure Department where
  id : Nat
  name : String
deriving DecidableEq

/-- Row of the `worker_profiles` table. -/
structure WorkerProfile where
  id : Nat
  user_id : Nat
  department_id : Nat
  daily_task_count : Nat
deriving DecidableEq

/-- Row of the `problems` table (fields relevant to the assignment core).
The float `priority` column is modelled as a rational. -/
structure Problem where
  id : Nat
  problem_type : String
  district : String
  priority : ℚ
  status : ProblemStatus
  user_id : Nat
  assigned_worker_id : Option Nat
deriving DecidableEq

/-- The database contents seen by the assignment core. -/
structure DBState where
  users : List User
  departments : List Department
  workers : List WorkerProfile
  problems : List Problem
deriving DecidableEq

/-- Lowercasing, modelling Python `str.lower()` / `String.toLower`, written
over the character list so that it evaluates by kernel reduction. -/
def lowerStr (s : String) : String := ⟨s.data.map Char.toLower⟩

/-- Case-insensitive containment test, modelling SQL `name ILIKE '%x%'`. -/
def containsCI (hay needle : String) : Bool :=
  decide (List.IsInfix (lowerStr needle).data (lowerStr hay).data)

/-- Model of SQLAlchemy `scalar_one_or_none()`: `none` for no row, the row if
unique, and an exception (`.error`) when several rows match. -/
def oneOrNone {α : Type} (l : List α) : Except Unit (Option α) :=
  match l with
  | [] => .ok none
  | [a] => .ok (some a)
  | _ => .error ()

/-- Model of SQLAlchemy `scalar_one()`: the row if unique, otherwise an
exception (`.error`). -/
def exactlyOne {α : Type} (l : List α) : Except Unit α :=
  match l with
  | [a] => .ok a
  | _ => .error ()

/-- The static synonym table `PROBLEM_TYPE_TO_DEPARTMENT` of
`assign_single_problem` in `auto_assignment.py`. -/
def PROBLEM_TYPE_TO_DEPARTMENT : List (String × String) :=
  [("pothole", "Roads"),
   ("road repair", "Roads"),
   ("road_repair", "Roads"),
   ("roads", "Roads"),
   ("street light", "Electrical"),
   ("streetlight", "Electrical"),
   ("electrical", "Electrical"),
   ("electricity", "Electrical"),
   ("power", "Electrical"),
   ("water supply", "Water"),
   ("water", "Water"),
   ("sewage", "Sanitation"),
   ("drainage", "Sanitation"),
   ("cleaning", "Sanitation"),
   ("sanitation", "Sanitation"),
   ("garbage", "Sanitation"),
   ("waste", "Sanitation"),
   ("public transport", "Transport"),
   ("transport", "Transport"),
   ("traffic", "Transport"),
   ("parks", "Parks and Gardens"),
   ("garden", "Parks and Gardens"),
   ("health", "Health"),
   ("hospital", "Health"),
   ("public works", "Public Works")]

/-- Association-list lookup with decidable string equality. -/
def lookupStr {α : Type} (l : List (String × α)) (k : String) : Option α :=
  (l.find? (fun e => decide (e.1 = k))).map Prod.snd

/-- `PROBLEM_TYPE_TO_DEPARTMENT.get(problem_type.lower(), problem_type)`:
the dictionary lookup on the lower-cased type, falling back to the raw type
string itself. -/
def typeToDeptName (problem_type : String) : String :=
  (lookupStr PROBLEM_TYPE_TO_DEPARTMENT (lowerStr problem_type)).getD problem_type

/-- Department resolution of `assign_single_problem` (lines 119-135): synonym
table, then exact name match, then case-insensitive substring match; each
database query goes through `scalar_one_or_none`, so several `ILIKE` matches
raise. -/
def resolveDepartment (depts : List Department) (problem_type : String) :
    Except Unit (Option Department) :=
  let dn := typeToDeptName problem_type
  match oneOrNone (depts.filter (fun d => decide (d.name = dn))) with
  | .error e => .error e
  | .ok (some d) => .ok (some d)
  | .ok none => oneOrNone (depts.filter (fun d => containsCI d.name dn))

/-- `MAX_DAILY_TASKS_PER_WORKER` default from `config.py`. -/
def MAX_DAILY_TASKS_PER_WORKER : Nat := 3

/-- `PRIORITY_DENSITY_WEIGHT` default from `config.py`. -/
def PRIORITY_DENSITY_WEIGHT : ℚ := 6/10

/-- `PRIORITY_URGENCY_WEIGHT` default from `config.py`. -/
def PRIORITY_URGENCY_WEIGHT : ℚ := 4/10

/-- The static urgency table `URGENCY_SCORES` of `priority.py`. -/
def URGENCY_SCORES : List (String × Nat) :=
  [("electrical", 9),
   ("sewage", 8),
   ("street light", 8),
   ("water supply", 7),
   ("drainage", 7),
   ("pothole", 6),
   ("road repair", 6),
   ("public transport", 5),
   ("cleaning", 4),
   ("other", 5),
   ("default", 5)]

/-- `URGENCY_SCORES.get(problem_type.lower(), URGENCY_SCORES["default"])`,
where the `"default"` entry is `5`. -/
def urgencyScore (problem_type : String) : Nat :=
  (lookupStr URGENCY_SCORES (lowerStr problem_type)).getD 5

/-- Python `round(x, 2)` on the rational model of the float. -/
def round2 (q : ℚ) : ℚ := (round (q * 100) : ℚ) / 100

/-- `density_score = min(nearby_problem_count / 10.0, 1.0) * 10`. -/
def densityScore (nearby : Nat) : ℚ := min ((nearby : ℚ) / 10) 1 * 10

/-- `calculate_priority_score` from `priority.py`.  The spatial query is
abstracted as its outcome: `.error` when the query raises, otherwise
`.ok` of the `scalar_one_or_none()` result (`None` is collapsed to `0` by
`or 0` in the source). -/
def calculate_priority_score (wd wu : ℚ) (spatial : Except Unit (Option Nat))
    (problem_type : String) : ℚ :=
  match spatial with
  | .ok r => round2 (densityScore (r.getD 0) * wd + (urgencyScore problem_type : ℚ) * wu)
  | .error _ => round2 ((urgencyScore problem_type : ℚ) * wu)

/-- Truth of `status = ASSIGNED and assigned_worker_id = wid` for one row. -/
def isActiveAssignment (wid : Nat) (p : Problem) : Bool :=
  decide (p.assigned_worker_id = some wid) && decide (p.status = ProblemStatus.assigned)

/-- The live aggregate `count(reports where assigned_worker = wid and
status = ASSIGNED)` over a problem list. -/
def countAssigned (l : List Problem) (wid : Nat) : Nat :=
  l.countP (isActiveAssignment wid)

/-- Live ASSIGNED-count of a worker in a state (the subquery of
`assign_single_problem`, lines 159-167). -/
def assignedCount (s : DBState) (wid : Nat) : Nat :=
  countAssigned s.problems wid

/-- The join/filter part of the worker query (lines 170-182): the worker is in
the department, its owning user exists, is in the district and is active. -/
def isCandidate (users : List User) (deptId : Nat) (district : String)
    (w : WorkerProfile) : Bool :=
  decide (w.department_id = deptId) &&
    match users.find? (fun u => decide (u.id = w.user_id)) with
    | some u => decide (u.district = district) && u.is_active
    | none => false

/-- The full `WHERE` clause of the worker query: candidate with live load
strictly below the cap. -/
def workerPred (s : DBState) (deptId : Nat) (district : String) (cap : Nat)
    (w : WorkerProfile) : Bool :=
  isCandidate s.users deptId district w && decide (assignedCount s w.id < cap)

/-- The full worker query of `assign_single_problem` (lines 170-187): filter
candidates with live load below the cap, order by live load ascending,
`limit(1)`.  The fold returns the first element of minimal load. -/
def findWorker (s : DBState) (deptId : Nat) (district : String) (cap : Nat) :
    Option WorkerProfile :=
  match s.workers.filter (workerPred s deptId district cap) with
  | [] => none
  | c :: cs =>
    some (cs.foldl
      (fun best w => if assignedCount s w.id < assignedCount s best.id then w else best) c)

/-- Outcome of one `assign_single_problem` call.  `noDept` carries the
attempted department name, which the source logs in its warning; `dbError`
stands for a caught exception followed by `db.rollback()`. -/
inductive AssignResult
  | assigned (workerId : Nat)
  | noDept (attempted : String)
  | noWorker
  | dbError
deriving DecidableEq

/-- Update of the problem rows matching an id (the ORM mutation of a single
fetched row, under unique ids). -/
def updateProblems (l : List Problem) (pid : Nat) (f : Problem → Problem) :
    List Problem :=
  l.map (fun q => if decide (q.id = pid) then f q else q)

/-- The committed mutation of a successful assignment (lines 224-229): the
problem row gets `status := ASSIGNED` and the worker reference, the worker's
advisory `daily_task_count` is incremented. -/
def applyAssignment (s : DBState) (p : Problem) (w : WorkerProfile) : DBState :=
  { s with
    problems := updateProblems s.problems p.id
      (fun q => { q with status := ProblemStatus.assigned,
                         assigned_worker_id := some w.id }),
    workers := s.workers.map (fun v =>
      if decide (v.id = w.id)
      then { v with daily_task_count := v.daily_task_count + 1 } else v) }

/-- `assign_single_problem` from `auto_assignment.py`.  Failures return the
unchanged state (the source returns `False` before any mutation, or rolls the
mutation back).  The two `scalar_one` user fetches before the commit are
modelled by `exactlyOne`; the notification dispatch after commit has no
database effect and its failures are swallowed. -/
def assign_single_problem (cap : Nat) (s : DBState) (p : Problem) :
    DBState × AssignResult :=
  match resolveDepartment s.departments p.problem_type with
  | .error _ => (s, .dbError)
  | .ok none => (s, .noDept (typeToDeptName p.problem_type))
  | .ok (some dept) =>
    match findWorker s dept.id p.district cap with
    | none => (s, .noWorker)
    | some w =>
      match exactlyOne (s.users.filter (fun u => decide (u.id = w.user_id))),
            exactlyOne (s.users.filter (fun u => decide (u.id = p.user_id))) with
      | .ok _, .ok _ => (applyAssignment s p w, .assigned w.id)
      | _, _ => (s, .dbError)

/-- Row lookup by problem id. -/
def lookupProblem (s : DBState) (pid : Nat) : Option Problem :=
  s.problems.find? (fun p => decide (p.id = pid))

/-- The batch loop of `trigger_auto_assignment` (lines 49-75): for each id the
status is re-checked, non-pending rows are skipped, and processing continues
regardless of the outcome for the current row (a per-row exception is caught
and logged). -/
def processBatch (cap : Nat) : DBState → List Nat → DBState
  | s, [] => s
  | s, pid :: rest =>
    let s' :=
      match lookupProblem s pid with
      | none => s
      | some p =>
        if p.status = ProblemStatus.pending then (assign_single_problem cap s p).1 else s
    processBatch cap s' rest

/-- Insertion of a problem into a priority-descending list. -/
def insertByPriority (p : Problem) : List Problem → List Problem
  | [] => [p]
  | q :: qs =>
    if q.priority ≤ p.priority then p :: q :: qs else q :: insertByPriority p qs

/-- `ORDER BY priority DESC` (ties in an unspecified order; this model keeps a
deterministic insertion sort). -/
def sortByPriorityDesc (l : List Problem) : List Problem :=
  l.foldr insertByPriority []

/-- The `PENDING` rows of a state. -/
def pendingProblems (s : DBState) : List Problem :=
  s.problems.filter (fun p => decide (p.status = ProblemStatus.pending))

/-- `trigger_auto_assignment` from `auto_assignment.py`: take up to 10 pending
problems ordered by priority descending and run the batch loop over them. -/
def trigger_auto_assignment (cap : Nat) (s : DBState) : DBState :=
  processBatch cap s (((sortByPriorityDesc (pendingProblems s)).take 10).map Problem.id)

/-- Errors of the `deactivate_worker` admin handler. -/
inductive DeactivateError
  | notFound
  | dbError
deriving DecidableEq

/-- Truth of "this row is one of the worker's `PENDING`/`ASSIGNED` tasks" in
the cascade filter of `deactivate_worker` (lines 69-72). -/
def linkedTask (wpid : Nat) (p : Problem) : Bool :=
  decide (p.assigned_worker_id = some wpid) &&
    (decide (p.status = ProblemStatus.pending) ||
      decide (p.status = ProblemStatus.assigned))

/-- The cascade of `deactivate_worker` when a profile exists (lines 67-80):
reset every linked `PENDING`/`ASSIGNED` problem to `PENDING` with no worker
and zero the profile's advisory counter. -/
def deactivateCascade (s : DBState) (wpid : Nat) : DBState :=
  { s with
    problems := s.problems.map (fun p =>
      if linkedTask wpid p
      then { p with assigned_worker_id := none, status := ProblemStatus.pending }
      else p),
    workers := s.workers.map (fun w =>
      if decide (w.id = wpid) then { w with daily_task_count := 0 } else w) }

/-- The final `worker_user.is_active = False` write of `deactivate_worker`. -/
def markInactive (s : DBState) (uid : Nat) : DBState :=
  { s with
    users := s.users.map (fun u =>
      if decide (u.id = uid) then { u with is_active := false } else u) }

/-- `deactivate_worker` from `admin.py` (lines 53-84): look up the worker user
in the admin's district, reset every `PENDING`/`ASSIGNED` problem of the
worker's profile to `PENDING` with no worker, reset the advisory counter and
set the user inactive. -/
def deactivate_worker (s : DBState) (admin : User) (worker_user_id : Nat) :
    Except DeactivateError DBState :=
  match oneOrNone (s.users.filter (fun u =>
      decide (u.id = worker_user_id) && decide (u.role = Role.worker) &&
        decide (u.district = admin.district))) with
  | .error _ => .error .dbError
  | .ok none => .error .notFound
  | .ok (some wu) =>
    match oneOrNone (s.workers.filter (fun w => decide (w.user_id = worker_user_id))) with
    | .error _ => .error .dbError
    | .ok none => .ok (markInactive s wu.id)
    | .ok (some wp) => .ok (markInactive (deactivateCascade s wp.id) wu.id)

/-- Errors of the `reassign_issue_to_worker` admin handler, one constructor per
distinct `HTTPException` in the source. -/
inductive ReassignError
  | issueNotFound
  | issueWrongDistrict
  | issueNotAssigned
  | noCurrentWorker
  | workerNotFound
  | workerWrongDistrict
  | wrongDepartment
  | workerInactive
  | sameWorker
  | dbError
deriving DecidableEq

/-- The committed mutation of a successful reassignment (line 331): only the
issue's worker reference moves; its status stays `ASSIGNED`. -/
def applyReassign (s : DBState) (issue_id new_worker_id : Nat) : DBState :=
  { s with
    problems := updateProblems s.problems issue_id
      (fun p => { p with assigned_worker_id := some new_worker_id }) }

/-- `reassign_issue_to_worker` from `admin.py` (lines 252-388): validate the
issue (district, `ASSIGNED` status, a current worker), then the new worker
(exists, same district as the admin, same department as the current worker,
active, different from the current worker), and only then move the worker
reference.  Every rejection leaves the database untouched. -/
def reassign_issue_to_worker (s : DBState) (admin : User)
    (issue_id new_worker_id : Nat) : Except ReassignError DBState :=
  match oneOrNone (s.problems.filter (fun p => decide (p.id = issue_id))) with
  | .error _ => .error .dbError
  | .ok none => .error .issueNotFound
  | .ok (some issue) =>
    if issue.district ≠ admin.district then .error .issueWrongDistrict
    else if issue.status ≠ ProblemStatus.assigned then .error .issueNotAssigned
    else
      match issue.assigned_worker_id with
      | none => .error .noCurrentWorker
      | some cwid =>
        match oneOrNone (s.workers.filter (fun w => decide (w.id = cwid))) with
        | .error _ => .error .dbError
        | .ok cwOpt =>
          match oneOrNone (s.workers.filter (fun w => decide (w.id = new_worker_id))) with
          | .error _ => .error .dbError
          | .ok none => .error .workerNotFound
          | .ok (some nw) =>
            match s.users.find? (fun u => decide (u.id = nw.user_id)) with
            | none => .error .dbError
            | some nu =>
              if nu.district ≠ admin.district then .error .workerWrongDistrict
              else if cwOpt.any (fun cw => decide (nw.department_id ≠ cw.department_id))
              then .error .wrongDepartment
              else if !nu.is_active then .error .workerInactive
              else if new_worker_id = cwid then .error .sameWorker
              else .ok (applyReassign s issue_id new_worker_id)

/-- One administrative or scheduled step of the core: an orchestrator run, a
successful worker deactivation, or a successful admin reassignment (the two
handlers run behind `get_current_admin_user`). -/
inductive CoreStep (cap : Nat) : DBState → DBState → Prop
  | orch (s : DBState) : CoreStep cap s (trigger_auto_assignment cap s)
  | deact (s s' : DBState) (admin : User) (wuid : Nat) :
      admin.role = Role.admin → deactivate_worker s admin wuid = .ok s' →
      CoreStep cap s s'
  | reassign (s s' : DBState) (admin : User) (iid nwid : Nat) :
      admin.role = Role.admin → reassign_issue_to_worker s admin iid nwid = .ok s' →
      CoreStep cap s s'

/-- Reachability under the core operations. -/
def Reachable (cap : Nat) : DBState → DBState → Prop :=
  Relation.ReflTransGen (CoreStep cap)

/-- Steps without the admin reassignment path. -/
inductive SafeStep (cap : Nat) : DBState → DBState → Prop
  | orch (s : DBState) : SafeStep cap s (trigger_auto_assignment cap s)
  | deact (s s' : DBState) (admin : User) (wuid : Nat) :
      admin.role = Role.admin → deactivate_worker s admin wuid = .ok s' →
      SafeStep cap s s'

/-- Reachability under orchestrator runs and deactivations only. -/
def SafeReachable (cap : Nat) : DBState → DBState → Prop :=
  Relation.ReflTransGen (SafeStep cap)

/-- Invariant: an `ASSIGNED` report always carries a worker reference. -/
def statusWorkerInv (s : DBState) : Prop :=
  ∀ p ∈ s.problems, p.status = ProblemStatus.assigned → p.assigned_worker_id ≠ none

/-- Invariant: no worker's live `ASSIGNED`-count exceeds the cap. -/
def capInv (cap : Nat) (s : DBState) : Prop :=
  ∀ w ∈ s.workers, assignedCount s w.id ≤ cap

/-- Well-formedness: problem ids are pairwise distinct. -/
def NodupProblemIds (s : DBState) : Prop :=
  (s.problems.map Problem.id).Nodup

/-- Well-formedness: user ids are pairwise distinct. -/
def NodupUserIds (s : DBState) : Prop :=
  (s.users.map User.id).Nodup

instance (s : DBState) : Decidable (statusWorkerInv s) :=
  inferInstanceAs (Decidable (∀ p ∈ s.problems, _ → _))

instance (cap : Nat) (s : DBState) : Decidable (capInv cap s) :=
  inferInstanceAs (Decidable (∀ w ∈ s.workers, _))

instance (s : DBState) : Decidable (NodupProblemIds s) :=
  inferInstanceAs (Decidable (List.Nodup _))

instance (s : DBState) : Decidable (NodupUserIds s) :=
  inferInstanceAs (Decidable (List.Nodup _))

/-- Truth of "this `assign_single_problem` call does not assign": the batch
loop then proceeds with an unchanged database. -/
def AssignFails (cap : Nat) (s : DBState) (p : Problem) : Prop :=
  ∀ wid, (assign_single_problem cap s p).2 ≠ .assigned wid

/-- Shape of a worker row without its advisory counter; candidate filtering
and load computation depend only on this shape. -/
def wShape (w : WorkerProfile) : Nat × Nat × Nat :=
  (w.id, w.user_id, w.department_id)

/-- How an orchestrator run can move the database forward: departments and
users untouched, worker shapes untouched, live loads never decreasing, and
every still-`PENDING` row carried over verbatim. -/
structure MonoExt (t s' : DBState) : Prop where
  dept_eq : s'.departments = t.departments
  users_eq : s'.users = t.users
  workers_shape : s'.workers.map wShape = t.workers.map wShape
  ids_eq : s'.problems.map Problem.id = t.problems.map Problem.id
  load_mono : ∀ wid, assignedCount t wid ≤ assignedCount s' wid
  pending_back : ∀ pid p, lookupProblem s' pid = some p →
    p.status = ProblemStatus.pending → lookupProblem t pid = some p

/-- An empty database. -/
def emptyS : DBState := ⟨[], [], [], []⟩

/-- A district admin used in concrete scenarios. -/
def exAdmin : User := ⟨9, "d", Role.admin, true⟩

/-- Concrete state: worker profile 1 is at the default cap with three live
`ASSIGNED` reports, worker profile 2 holds one. -/
def c1s : DBState :=
  { users := [⟨1, "d", Role.worker, true⟩, ⟨2, "d", Role.worker, true⟩],
    departments := [⟨1, "Water"⟩],
    workers := [⟨1, 1, 1, 3⟩, ⟨2, 2, 1, 1⟩],
    problems := [⟨1, "water", "d", 5, ProblemStatus.assigned, 1, some 1⟩,
                 ⟨2, "water", "d", 5, ProblemStatus.assigned, 1, some 1⟩,
                 ⟨3, "water", "d", 5, ProblemStatus.assigned, 1, some 1⟩,
                 ⟨4, "water", "d", 5, ProblemStatus.assigned, 1, some 2⟩] }

/-- `c1s` after the admin reassigns report 4 from worker profile 2 to the
already-full worker profile 1. -/
def c1s' : DBState :=
  { c1s with
    problems := [⟨1, "water", "d", 5, ProblemStatus.assigned, 1, some 1⟩,
                 ⟨2, "water", "d", 5, ProblemStatus.assigned, 1, some 1⟩,
                 ⟨3, "water", "d", 5, ProblemStatus.assigned, 1, some 1⟩,
                 ⟨4, "water", "d", 5, ProblemStatus.assigned, 1, some 1⟩] }

/-- A pending report in district `"d"` submitted by user 1. -/
def c5prob (i : Nat) (t : String) (pr : ℚ) : Problem :=
  ⟨i, t, "d", pr, ProblemStatus.pending, 1, none⟩

/-- Concrete state with eleven pending reports: the three highest-priority
ones and the lowest-priority one resolve to the `Water` department, the seven
in between resolve to no department. -/
def c5s : DBState :=
  { users := [⟨1, "d", Role.worker, true⟩, ⟨2, "d", Role.worker, true⟩],
    departments := [⟨1, "Water"⟩],
    workers := [⟨1, 1, 1, 0⟩, ⟨2, 2, 1, 0⟩],
    problems := c5prob 1 "water" 13 :: c5prob 2 "water" 12 :: c5prob 3 "water" 11 ::
      (List.range 7).map (fun i => c5prob (i + 4) "xyz" ((10 - i : Nat) : ℚ)) ++
      [c5prob 11 "water" 0] }

/-- Concrete state with a single in-district, in-department worker of load 0. -/
def c4s : DBState :=
  { users := [⟨1, "d", Role.worker, true⟩],
    departments := [⟨1, "Water"⟩],
    workers := [⟨1, 1, 1, 0⟩],
    problems := [] }

/-- Concrete state for the deactivation scenario: worker profile 5 (user 2)
holds two `ASSIGNED` reports and one `PENDING`-but-linked report; report 4 is
`COMPLETED` and report 5 belongs to another worker. -/
def c6s : DBState :=
  { users := [⟨2, "d", Role.worker, true⟩, ⟨3, "d", Role.worker, true⟩],
    departments := [⟨1, "Water"⟩],
    workers := [⟨5, 2, 1, 7⟩, ⟨6, 3, 1, 0⟩],
    problems := [⟨1, "water", "d", 5, ProblemStatus.assigned, 2, some 5⟩,
                 ⟨2, "water", "d", 4, ProblemStatus.assigned, 2, some 5⟩,
                 ⟨3, "water", "d", 3, ProblemStatus.pending, 2, some 5⟩,
                 ⟨4, "water", "d", 2, ProblemStatus.completed, 2, some 5⟩,
                 ⟨5, "water", "d", 1, ProblemStatus.assigned, 2, some 6⟩] }

/-- Result state of deactivating user 2 in `c6s`. -/
def c6s' : DBState :=
  { users := [⟨2, "d", Role.worker, false⟩, ⟨3, "d", Role.worker, true⟩],
    departments := [⟨1, "Water"⟩],
    workers := [⟨5, 2, 1, 0⟩, ⟨6, 3, 1, 0⟩],
    problems := [⟨1, "water", "d", 5, ProblemStatus.pending, 2, none⟩,
                 ⟨2, "water", "d", 4, ProblemStatus.pending, 2, none⟩,
                 ⟨3, "water", "d", 3, ProblemStatus.pending, 2, none⟩,
                 ⟨4, "water", "d", 2, ProblemStatus.completed, 2, some 5⟩,
                 ⟨5, "water", "d", 1, ProblemStatus.assigned, 2, some 6⟩] }

/-- Concrete state for the reassignment scenario: report 1 is `ASSIGNED` to
worker profile 1; worker profile 2 is an active same-department,
same-district alternative. -/
def c7s : DBState :=
  { users := [⟨1, "d", Role.worker, true⟩, ⟨2, "d", Role.worker, true⟩],
    departments := [⟨1, "Water"⟩],
    workers := [⟨1, 1, 1, 0⟩, ⟨2, 2, 1, 0⟩],
    problems := [⟨1, "water", "d", 5, ProblemStatus.assigned, 1, some 1⟩] }

/-- Concrete state whose only department is `Roads`, together with a report of
an unmappable type. -/
def c8s : DBState :=
  { users := [⟨1, "d", Role.client, true⟩],
    departments := [⟨1, "Roads"⟩],
    workers := [],
    problems := [⟨1, "xyz-unknown-type", "d", 5, ProblemStatus.pending, 1, none⟩] }

/-- Concrete state with two departments that both match the substring lookup
for the unmapped type `"Road"`. -/
def c10s : DBState :=
  { users := [⟨1, "d", Role.client, true⟩],
    departments := [⟨1, "Water Roads"⟩, ⟨2, "Roads East"⟩],
    workers := [],
    problems := [⟨1, "Road", "d", 5, ProblemStatus.pending, 1, none⟩] }

/-- Mapping a list cannot raise a count when the map never turns a
non-matching element into a matching one. -/
theorem countP_map_le {α : Type} (l : List α) (g : α → α) (Q : α → Bool)
    (h : ∀ a ∈ l, Q (g a) = true → Q a = true) :
    (l.map g).countP Q ≤ l.countP Q := by
  induction l with
  | nil => simp
  | cons a t ih =>
    have ht := ih (fun x hx hQ => h x (List.mem_cons_of_mem _ hx) hQ)
    simp only [List.map_cons, List.countP_cons]
    by_cases hq : Q (g a) = true
    · rw [if_pos hq, if_pos (h a (List.mem_cons_self a t) hq)]
      omega
    · rw [if_neg hq]
      by_cases hqa : Q a = true
      · rw [if_pos hqa]; omega
      · rw [if_neg hqa]; omega

/-- Mapping a list cannot lower a count when the map never turns a matching
element into a non-matching one. -/
theorem countP_map_ge {α : Type} (l : List α) (g : α → α) (Q : α → Bool)
    (h : ∀ a ∈ l, Q a = true → Q (g a) = true) :
    l.countP Q ≤ (l.map g).countP Q := by
  induction l with
  | nil => simp
  | cons a t ih =>
    have ht := ih (fun x hx hQ => h x (List.mem_cons_of_mem _ hx) hQ)
    simp only [List.map_cons, List.countP_cons]
    by_cases hqa : Q a = true
    · rw [if_pos hqa, if_pos (h a (List.mem_cons_self a t) hqa)]
      omega
    · rw [if_neg hqa]
      by_cases hq : Q (g a) = true
      · rw [if_pos hq]; omega
      · rw [if_neg hq]; omega

/-- Mapping a list raises a count by at most the number of exceptional
elements covered by the side predicate. -/
theorem countP_map_le_add {α : Type} (l : List α) (g : α → α) (Q R : α → Bool)
    (h : ∀ a ∈ l, Q (g a) = true → Q a = true ∨ R a = true) :
    (l.map g).countP Q ≤ l.countP Q + l.countP R := by
  induction l with
  | nil => simp
  | cons a t ih =>
    have ht := ih (fun x hx hQ => h x (List.mem_cons_of_mem _ hx) hQ)
    simp only [List.map_cons, List.countP_cons]
    by_cases hq : Q (g a) = true
    · rw [if_pos hq]
      rcases h a (List.mem_cons_self a t) hq with ha | ha
      · rw [if_pos ha]
        by_cases hra : R a = true
        · rw [if_pos hra]; omega
        · rw [if_neg hra]; omega
      · rw [if_pos ha]
        by_cases hqa : Q a = true
        · rw [if_pos hqa]; omega
        · rw [if_neg hqa]; omega
    · rw [if_neg hq]
      by_cases hqa : Q a = true
      · rw [if_pos hqa]
        by_cases hra : R a = true
        · rw [if_pos hra]; omega
        · rw [if_neg hra]; omega
      · rw [if_neg hqa]
        by_cases hra : R a = true
        · rw [if_pos hra]; omega
        · rw [if_neg hra]; omega

/-- Under distinct keys, at most one element of a list carries a given key. -/
theorem countP_key_le_one {α β : Type} [DecidableEq β] (f : α → β) (l : List α)
    (h : (l.map f).Nodup) (b : β) :
    l.countP (fun a => decide (f a = b)) ≤ 1 := by
  induction l with
  | nil => simp
  | cons a t ih =>
    simp only [List.map_cons, List.nodup_cons] at h
    rw [List.countP_cons]
    by_cases hb : f a = b
    · have h0 : t.countP (fun a => decide (f a = b)) = 0 := by
        rw [List.countP_eq_zero]
        intro x hx
        simp only [decide_eq_true_eq]
        intro hfx
        exact h.1 (by rw [hb, ← hfx]; exact List.mem_map_of_mem f hx)
      simp [hb, h0]
    · have := ih h.2
      simp only [hb, decide_eq_true_eq, if_neg, decide_False]
      simpa using this

/-- Under distinct keys, an element of the list with the key of a known
member is that member. -/
theorem eq_of_key_eq {α β : Type} (f : α → β) (l : List α)
    (h : (l.map f).Nodup) {a b : α} (ha : a ∈ l) (hb : b ∈ l) (hk : f a = f b) :
    a = b :=
  List.inj_on_of_nodup_map h ha hb hk

/-- Membership in the insertion step of the priority sort. -/
theorem mem_insertByPriority (p a : Problem) (l : List Problem) :
    a ∈ insertByPriority p l ↔ a = p ∨ a ∈ l := by
  induction l with
  | nil => simp [insertByPriority]
  | cons q t ih =>
    simp only [insertByPriority]
    split
    · simp [List.mem_cons]
    · simp only [List.mem_cons, ih]
      tauto

/-- The priority sort permutes membership. -/
theorem mem_sortByPriorityDesc (a : Problem) (l : List Problem) :
    a ∈ sortByPriorityDesc l ↔ a ∈ l := by
  induction l with
  | nil => simp [sortByPriorityDesc]
  | cons q t ih =>
    simp only [sortByPriorityDesc, List.foldr_cons] at *
    rw [mem_insertByPriority]
    simp [ih]

/-- The insertion step of the priority sort adds one element. -/
theorem length_insertByPriority (p : Problem) (l : List Problem) :
    (insertByPriority p l).length = l.length + 1 := by
  induction l with
  | nil => simp [insertByPriority]
  | cons q t ih =>
    simp only [insertByPriority]
    split
    · simp
    · simp [ih]

/-- The priority sort preserves length. -/
theorem length_sortByPriorityDesc (l : List Problem) :
    (sortByPriorityDesc l).length = l.length := by
  induction l with
  | nil => simp [sortByPriorityDesc]
  | cons q t ih =>
    simp only [sortByPriorityDesc, List.foldr_cons] at *
    rw [length_insertByPriority, ih]
    simp

/-- The running minimum returned by the worker fold is one of the inputs. -/
theorem foldl_argmin_mem {α : Type} (f : α → Nat) (c : α) (cs : List α) :
    cs.foldl (fun best w => if f w < f best then w else best) c ∈ c :: cs := by
  induction cs generalizing c with
  | nil => simp
  | cons a t ih =>
    simp only [List.foldl_cons]
    rcases List.mem_cons.mp (ih (if f a < f c then a else c)) with h | h
    · rw [h]
      by_cases hc : f a < f c
      · simp [hc]
      · simp [hc]
    · simp [List.mem_cons, h]

/-- The running minimum returned by the worker fold has minimal measure. -/
theorem foldl_argmin_le {α : Type} (f : α → Nat) (c : α) (cs : List α) :
    ∀ x ∈ c :: cs, f (cs.foldl (fun best w => if f w < f best then w else best) c) ≤ f x := by
  induction cs generalizing c with
  | nil =>
    intro x hx
    simp only [List.mem_singleton] at hx
    simp [hx]
  | cons a t ih =>
    intro x hx
    simp only [List.foldl_cons]
    have hstart : f (if f a < f c then a else c) ≤ f c ∧
        f (if f a < f c then a else c) ≤ f a := by
      by_cases h : f a < f c
      · simp [h]; omega
      · simp [h]; omega
    have hres := ih (if f a < f c then a else c)
    rcases List.mem_cons.mp hx with rfl | hx'
    · exact le_trans (hres _ (List.mem_cons_self _ _)) hstart.1
    · rcases List.mem_cons.mp hx' with rfl | hx''
      · exact le_trans (hres _ (List.mem_cons_self _ _)) hstart.2
      · exact hres _ (List.mem_cons_of_mem _ hx'')

/-- The worker query is empty exactly when no worker passes its filter. -/
theorem findWorker_none_iff (s : DBState) (deptId : Nat) (district : String)
    (cap : Nat) :
    findWorker s deptId district cap = none ↔
      ∀ w ∈ s.workers, ¬ workerPred s deptId district cap w = true := by
  constructor
  · intro h
    unfold findWorker at h
    rcases hf : s.workers.filter (workerPred s deptId district cap) with _ | ⟨c, cs⟩
    · exact List.filter_eq_nil_iff.mp hf
    · rw [hf] at h
      simp at h
  · intro h
    unfold findWorker
    rw [List.filter_eq_nil_iff.mpr h]

/-- The worker returned by the query is a member, passes the filter, and has
minimal live load among all workers passing the filter. -/
theorem findWorker_some_spec (s : DBState) (deptId : Nat) (district : String)
    (cap : Nat) (w : WorkerProfile) (h : findWorker s deptId district cap = some w) :
    w ∈ s.workers ∧ workerPred s deptId district cap w = true ∧
      ∀ w' ∈ s.workers, workerPred s deptId district cap w' = true →
        assignedCount s w.id ≤ assignedCount s w'.id := by
  unfold findWorker at h
  rcases hf : s.workers.filter (workerPred s deptId district cap) with _ | ⟨c, cs⟩
  · rw [hf] at h
    exact absurd h (by simp)
  · rw [hf] at h
    simp only [Option.some.injEq] at h
    have hmem0 : w ∈ c :: cs := by
      rw [← h]
      exact foldl_argmin_mem (fun w => assignedCount s w.id) c cs
    have hmemf : w ∈ s.workers.filter (workerPred s deptId district cap) := by
      rw [hf]; exact hmem0
    refine ⟨(List.mem_filter.mp hmemf).1, (List.mem_filter.mp hmemf).2, ?_⟩
    intro w' hw' hpred
    have hw' : w' ∈ c :: cs := by
      rw [← hf]
      exact List.mem_filter.mpr ⟨hw', hpred⟩
    rw [← h]
    exact foldl_argmin_le (fun w => assignedCount s w.id) c cs w' hw'

/-- Unfolding of the worker filter into its two conjuncts. -/
theorem workerPred_iff (s : DBState) (deptId : Nat) (district : String)
    (cap : Nat) (w : WorkerProfile) :
    workerPred s deptId district cap w = true ↔
      isCandidate s.users deptId district w = true ∧ assignedCount s w.id < cap := by
  simp [workerPred]

/-- Candidacy only looks at the shape of a worker row, never at its advisory
counter. -/
theorem isCandidate_of_shape (users : List User) (deptId : Nat) (district : String)
    {w w' : WorkerProfile} (h : wShape w = wShape w') :
    isCandidate users deptId district w = isCandidate users deptId district w' := by
  simp only [wShape, Prod.mk.injEq] at h
  unfold isCandidate
  rw [h.2.1, h.2.2]

/-- An id-preserving single-row update preserves the id column. -/
theorem map_id_updateProblems (l : List Problem) (pid : Nat) (f : Problem → Problem)
    (hf : ∀ q, (f q).id = q.id) :
    (updateProblems l pid f).map Problem.id = l.map Problem.id := by
  unfold updateProblems
  rw [List.map_map]
  apply List.map_congr_left
  intro q hq
  by_cases h : q.id = pid
  · simp [Function.comp, h, hf]
  · simp [Function.comp, h]

/-- Row lookup after an id-preserving single-row update. -/
theorem find?_updateProblems (l : List Problem) (pid : Nat) (f : Problem → Problem)
    (hf : ∀ q, (f q).id = q.id) (x : Nat) :
    (updateProblems l pid f).find? (fun p => decide (p.id = x)) =
      (l.find? (fun p => decide (p.id = x))).map
        (fun q => if decide (q.id = pid) then f q else q) := by
  unfold updateProblems
  rw [List.find?_map]
  congr 1
  have hcomp : ((fun p => decide (p.id = x)) ∘
      fun q => if decide (q.id = pid) = true then f q else q) =
        fun p => decide (p.id = x) := by
    funext q
    by_cases h : q.id = pid
    · simp [Function.comp, h, hf]
    · simp [Function.comp, h]
  rw [hcomp]

/-- An assignment to one worker cannot raise another worker's live load. -/
theorem countAssigned_apply_other (s : DBState) (p : Problem) (w : WorkerProfile)
    (wid : Nat) (hne : wid ≠ w.id) :
    countAssigned (applyAssignment s p w).problems wid ≤ countAssigned s.problems wid := by
  apply countP_map_le
  intro q hq hQ
  by_cases h : q.id = p.id
  · exfalso
    simp only [h, decide_True, if_pos, isActiveAssignment, Bool.and_eq_true,
      decide_eq_true_eq] at hQ
    exact hne (Option.some.inj hQ.1).symm
  · simpa [h] using hQ

/-- An assignment raises the target worker's live load by at most one when
problem ids are distinct. -/
theorem countAssigned_apply_self (s : DBState) (p : Problem) (w : WorkerProfile)
    (hn : NodupProblemIds s) :
    countAssigned (applyAssignment s p w).problems w.id ≤
      countAssigned s.problems w.id + 1 := by
  simp only [countAssigned, applyAssignment, updateProblems]
  refine le_trans (countP_map_le_add s.problems _
    (isActiveAssignment w.id) (fun q => decide (q.id = p.id)) ?_) ?_
  · intro q hq hQ
    by_cases h : q.id = p.id
    · right; simp [h]
    · left; simpa [h] using hQ
  · have hone := countP_key_le_one Problem.id s.problems hn p.id
    omega

/-- An assignment of a pending problem never lowers any live load when
problem ids are distinct. -/
theorem countAssigned_apply_mono (s : DBState) (p : Problem) (w : WorkerProfile)
    (hn : NodupProblemIds s) (hp : p ∈ s.problems)
    (hpend : p.status = ProblemStatus.pending) (wid : Nat) :
    countAssigned s.problems wid ≤ countAssigned (applyAssignment s p w).problems wid := by
  apply countP_map_ge
  intro q hq hQ
  by_cases h : q.id = p.id
  · exfalso
    have hqp : q = p := eq_of_key_eq Problem.id s.problems hn hq hp h
    rw [hqp] at hQ
    simp [isActiveAssignment, hpend] at hQ
  · simpa [h] using hQ

/-- Case analysis of one `assign_single_problem` call: either it fails and
returns the unchanged state, or every stage succeeded and it returns the
committed assignment. -/
theorem assign_single_problem_cases (cap : Nat) (s : DBState) (p : Problem) :
    ((assign_single_problem cap s p).1 = s ∧ AssignFails cap s p) ∨
    (∃ dept w u r,
      resolveDepartment s.departments p.problem_type = .ok (some dept) ∧
      findWorker s dept.id p.district cap = some w ∧
      exactlyOne (s.users.filter (fun v => decide (v.id = w.user_id))) = .ok u ∧
      exactlyOne (s.users.filter (fun v => decide (v.id = p.user_id))) = .ok r ∧
      assign_single_problem cap s p = (applyAssignment s p w, .assigned w.id)) := by
  rcases hres : resolveDepartment s.departments p.problem_type with e | od
  · left
    refine ⟨by simp [assign_single_problem, hres], fun wid => ?_⟩
    simp [assign_single_problem, hres]
  · rcases od with _ | dept
    · left
      refine ⟨by simp [assign_single_problem, hres], fun wid => ?_⟩
      simp [assign_single_problem, hres]
    · rcases hfw : findWorker s dept.id p.district cap with _ | w
      · left
        refine ⟨by simp [assign_single_problem, hres, hfw], fun wid => ?_⟩
        simp [assign_single_problem, hres, hfw]
      · rcases hu : exactlyOne (s.users.filter (fun v => decide (v.id = w.user_id))) with
          eu | u
        · left
          refine ⟨by simp [assign_single_problem, hres, hfw, hu], fun wid => ?_⟩
          simp [assign_single_problem, hres, hfw, hu]
        · rcases hr : exactlyOne (s.users.filter (fun v => decide (v.id = p.user_id))) with
            er | r
          · left
            refine ⟨by simp [assign_single_problem, hres, hfw, hu, hr], fun wid => ?_⟩
            simp [assign_single_problem, hres, hfw, hu, hr]
          · right
            exact ⟨dept, w, u, r, rfl, hfw, hu, hr,
              by simp [assign_single_problem, hres, hfw, hu, hr]⟩

/-- A failed `assign_single_problem` call leaves the state unchanged. -/
theorem assignFails_fst (cap : Nat) (s : DBState) (p : Problem)
    (h : AssignFails cap s p) :
    (assign_single_problem cap s p).1 = s := by
  rcases assign_single_problem_cases cap s p with ⟨h1, _⟩ | ⟨dept, w, u, r, _, _, _, _, heq⟩
  · exact h1
  · exact absurd (by rw [heq]) (h w.id)

/-- When all stages succeed, `assign_single_problem` commits the assignment. -/
theorem assign_single_problem_success (cap : Nat) (s : DBState) (p : Problem)
    (dept : Department) (w : WorkerProfile) (u r : User)
    (hres : resolveDepartment s.departments p.problem_type = .ok (some dept))
    (hfw : findWorker s dept.id p.district cap = some w)
    (hu : exactlyOne (s.users.filter (fun v => decide (v.id = w.user_id))) = .ok u)
    (hr : exactlyOne (s.users.filter (fun v => decide (v.id = p.user_id))) = .ok r) :
    assign_single_problem cap s p = (applyAssignment s p w, .assigned w.id) := by
  simp [assign_single_problem, hres, hfw, hu, hr]

/-- `MonoExt` is reflexive. -/
theorem monoExt_refl (s : DBState) : MonoExt s s :=
  ⟨rfl, rfl, rfl, rfl, fun _ => le_refl _, fun _ _ h _ => h⟩

/-- `MonoExt` is transitive. -/
theorem monoExt_trans {a b c : DBState} (h1 : MonoExt a b) (h2 : MonoExt b c) :
    MonoExt a c :=
  ⟨h2.dept_eq.trans h1.dept_eq, h2.users_eq.trans h1.users_eq,
   h2.workers_shape.trans h1.workers_shape, h2.ids_eq.trans h1.ids_eq,
   fun wid => le_trans (h1.load_mono wid) (h2.load_mono wid),
   fun pid p hp hpend => h1.pending_back pid p (h2.pending_back pid p hp hpend) hpend⟩

/-- Distinct problem ids carry over along `MonoExt`. -/
theorem nodup_of_monoExt {a b : DBState} (h : MonoExt a b)
    (hn : NodupProblemIds a) : NodupProblemIds b := by
  unfold NodupProblemIds at *
  rw [h.ids_eq]
  exact hn

/-- A committed assignment of a pending problem is a monotone extension. -/
theorem monoExt_applyAssignment (s : DBState) (p : Problem) (w : WorkerProfile)
    (hn : NodupProblemIds s) (hp : p ∈ s.problems)
    (hpend : p.status = ProblemStatus.pending) :
    MonoExt s (applyAssignment s p w) := by
  refine ⟨rfl, rfl, ?_, ?_, ?_, ?_⟩
  · show (s.workers.map _).map wShape = s.workers.map wShape
    rw [List.map_map]
    apply List.map_congr_left
    intro v hv
    by_cases h : v.id = w.id
    · simp [Function.comp, wShape, h]
    · simp [Function.comp, wShape, h]
  · exact map_id_updateProblems s.problems p.id _ (fun q => rfl)
  · exact countAssigned_apply_mono s p w hn hp hpend
  · intro pid q hq hqpend
    unfold lookupProblem at hq ⊢
    rw [show (applyAssignment s p w).problems = updateProblems s.problems p.id
        (fun q => { q with status := ProblemStatus.assigned,
                           assigned_worker_id := some w.id }) from rfl,
      find?_updateProblems s.problems p.id
        (fun q => { q with status := ProblemStatus.assigned,
                           assigned_worker_id := some w.id })
        (fun q => rfl) pid] at hq
    rcases hfind : s.problems.find? (fun r => decide (r.id = pid)) with _ | q0
    · rw [hfind] at hq
      simp at hq
    · rw [hfind] at hq
      simp only [Option.map_some'] at hq
      injection hq with hq
      by_cases h : q0.id = p.id
      · exfalso
        rw [if_pos (by simpa using h)] at hq
        rw [← hq] at hqpend
        simp at hqpend
      · rw [if_neg (by simpa using h)] at hq
        rw [hfind, hq]

/-- Row lookup in the state after a committed assignment. -/
theorem lookup_applyAssignment (s : DBState) (p : Problem) (w : WorkerProfile)
    (pid : Nat) (hl : lookupProblem s pid = some p) :
    lookupProblem (applyAssignment s p w) pid =
      some { p with status := ProblemStatus.assigned,
                    assigned_worker_id := some w.id } := by
  have hpid : p.id = pid := by
    have := List.find?_some hl
    simpa using this
  unfold lookupProblem
  rw [show (applyAssignment s p w).problems = updateProblems s.problems p.id
      (fun q => { q with status := ProblemStatus.assigned,
                         assigned_worker_id := some w.id }) from rfl,
    find?_updateProblems s.problems p.id
      (fun q => { q with status := ProblemStatus.assigned,
                         assigned_worker_id := some w.id })
      (fun q => rfl) pid]
  unfold lookupProblem at hl
  rw [hl]
  simp

/-- Specification of one orchestrator batch run: the run is a monotone
extension leaving users untouched, and every problem of the batch that is
still pending afterwards failed an `assign_single_problem` call at some
intermediate state seen by this very run. -/
theorem processBatch_spec (cap : Nat) (B : List Nat) (s : DBState)
    (hn : NodupProblemIds s) :
    MonoExt s (processBatch cap s B) ∧
    ∀ pid ∈ B, ∀ p, lookupProblem (processBatch cap s B) pid = some p →
      p.status = ProblemStatus.pending →
      ∃ t, MonoExt t (processBatch cap s B) ∧ t.users = s.users ∧
        AssignFails cap t p := by
  induction B generalizing s with
  | nil =>
    refine ⟨monoExt_refl s, ?_⟩
    intro pid h
    simp at h
  | cons pid rest ih =>
    rcases hl : lookupProblem s pid with _ | p0
    · have hstep : processBatch cap s (pid :: rest) = processBatch cap s rest := by
        simp only [processBatch, hl]
      rw [hstep]
      obtain ⟨hM, hrest⟩ := ih s hn
      refine ⟨hM, ?_⟩
      intro pid' hpid' p hp hpend
      rcases List.mem_cons.mp hpid' with rfl | hpid'
      · exact absurd (hM.pending_back pid' p hp hpend) (by rw [hl]; simp)
      · exact hrest pid' hpid' p hp hpend
    · by_cases hst : p0.status = ProblemStatus.pending
      · rcases assign_single_problem_cases cap s p0 with ⟨hfst, hfail⟩ |
          ⟨dept, w, u, r, hres, hfw, hu, hr, heq⟩
        · have hstep : processBatch cap s (pid :: rest) = processBatch cap s rest := by
            simp only [processBatch, hl, if_pos hst, hfst]
          rw [hstep]
          obtain ⟨hM, hrest⟩ := ih s hn
          refine ⟨hM, ?_⟩
          intro pid' hpid' p hp hpend
          rcases List.mem_cons.mp hpid' with rfl | hpid'
          · have hback := hM.pending_back pid' p hp hpend
            rw [hl] at hback
            injection hback with hback
            exact ⟨s, hM, rfl, hback ▸ hfail⟩
          · exact hrest pid' hpid' p hp hpend
        · have hstep : processBatch cap s (pid :: rest) =
              processBatch cap (applyAssignment s p0 w) rest := by
            simp only [processBatch, hl, if_pos hst, heq]
          rw [hstep]
          have hp0mem : p0 ∈ s.problems := List.mem_of_find?_eq_some hl
          have hM1 : MonoExt s (applyAssignment s p0 w) :=
            monoExt_applyAssignment s p0 w hn hp0mem hst
          have hn1 : NodupProblemIds (applyAssignment s p0 w) :=
            nodup_of_monoExt hM1 hn
          obtain ⟨hM2, hrest⟩ := ih (applyAssignment s p0 w) hn1
          refine ⟨monoExt_trans hM1 hM2, ?_⟩
          intro pid' hpid' p hp hpend
          rcases List.mem_cons.mp hpid' with rfl | hpid'
          · exfalso
            have hback := hM2.pending_back pid' p hp hpend
            rw [lookup_applyAssignment s p0 w pid' hl] at hback
            injection hback with hback
            rw [← hback] at hpend
            simp at hpend
          · obtain ⟨t, hMt, htu, htfail⟩ := hrest pid' hpid' p hp hpend
            exact ⟨t, hMt, htu.trans rfl, htfail⟩
      · have hstep : processBatch cap s (pid :: rest) = processBatch cap s rest := by
          simp only [processBatch, hl, if_neg hst]
        rw [hstep]
        obtain ⟨hM, hrest⟩ := ih s hn
        refine ⟨hM, ?_⟩
        intro pid' hpid' p hp hpend
        rcases List.mem_cons.mp hpid' with rfl | hpid'
        · have hback := hM.pending_back pid' p hp hpend
          rw [hl] at hback
          injection hback with hback
          exact absurd (hback ▸ hpend) hst
        · exact hrest pid' hpid' p hp hpend

/-- An empty worker query stays empty along a monotone extension: candidacy
depends only on untouched data and loads never decrease. -/
theorem findWorker_none_mono {t s' : DBState} (hM : MonoExt t s')
    (deptId : Nat) (district : String) (cap : Nat)
    (h : findWorker t deptId district cap = none) :
    findWorker s' deptId district cap = none := by
  rw [findWorker_none_iff] at h ⊢
  intro w' hw' hpred'
  have hsh : wShape w' ∈ t.workers.map wShape := by
    rw [← hM.workers_shape]
    exact List.mem_map_of_mem wShape hw'
  rcases List.mem_map.mp hsh with ⟨w, hw, hshape⟩
  apply h w hw
  rw [workerPred_iff] at hpred' ⊢
  have hid : w.id = w'.id := by
    simp only [wShape, Prod.mk.injEq] at hshape
    exact hshape.1
  constructor
  · rw [isCandidate_of_shape t.users deptId district hshape, ← hM.users_eq]
    exact hpred'.1
  · calc assignedCount t w.id ≤ assignedCount s' w.id := hM.load_mono w.id
      _ = assignedCount s' w'.id := by rw [hid]
      _ < cap := hpred'.2

/-- A candidate worker's owning user is fetched successfully by `scalar_one`
when user ids are distinct. -/
theorem exactlyOne_user_of_candidate (users : List User) (deptId : Nat)
    (district : String) (w : WorkerProfile)
    (hc : isCandidate users deptId district w = true)
    (hn : (users.map User.id).Nodup) :
    ∃ u, exactlyOne (users.filter (fun v => decide (v.id = w.user_id))) = .ok u := by
  unfold isCandidate at hc
  rcases hfind : users.find? (fun v => decide (v.id = w.user_id)) with _ | u0
  · rw [hfind] at hc
    simp at hc
  · have hmem := List.mem_of_find?_eq_some hfind
    have hpred := List.find?_some hfind
    have hcount : users.countP (fun v => decide (v.id = w.user_id)) ≤ 1 :=
      countP_key_le_one User.id users hn w.user_id
    have hfmem : u0 ∈ users.filter (fun v => decide (v.id = w.user_id)) :=
      List.mem_filter.mpr ⟨hmem, hpred⟩
    rcases hfl : users.filter (fun v => decide (v.id = w.user_id)) with _ | ⟨a, tl⟩
    · rw [hfl] at hfmem
      simp at hfmem
    · rcases tl with _ | ⟨b, tl2⟩
      · exact ⟨a, by rw [hfl]; rfl⟩
      · exfalso
        rw [List.countP_eq_length_filter, hfl] at hcount
        simp at hcount

/-- A failing `assign_single_problem` call keeps failing at any later state of
the same run: the department data is unchanged and no capacity reappears. -/
theorem assignFails_transfer (cap : Nat) {t s' : DBState} (p : Problem)
    (hM : MonoExt t s') (hnu : NodupUserIds t) (hfail : AssignFails cap t p) :
    (assign_single_problem cap s' p).1 = s' ∧ AssignFails cap s' p := by
  have hfail' : AssignFails cap s' p := by
    rcases assign_single_problem_cases cap s' p with ⟨_, hf⟩ |
      ⟨dept, w, u, r, hres', hfw', hu', hr', heq'⟩
    · exact hf
    · exfalso
      have hresT : resolveDepartment t.departments p.problem_type = .ok (some dept) := by
        rw [← hM.dept_eq]
        exact hres'
      rcases hfwT : findWorker t dept.id p.district cap with _ | wT
      · have hnone := findWorker_none_mono hM dept.id p.district cap hfwT
        rw [hnone] at hfw'
        exact absurd hfw' (by simp)
      · have hspec := findWorker_some_spec t dept.id p.district cap wT hfwT
        have hcand := ((workerPred_iff t dept.id p.district cap wT).mp hspec.2.1).1
        obtain ⟨uT, huT⟩ :=
          exactlyOne_user_of_candidate t.users dept.id p.district wT hcand hnu
        have hrT : exactlyOne (t.users.filter (fun v => decide (v.id = p.user_id))) =
            .ok r := by
          rw [← hM.users_eq]
          exact hr'
        have hsucc := assign_single_problem_success cap t p dept wT uT r
          hresT hfwT huT hrT
        exact hfail wT.id (by rw [hsucc])
  exact ⟨assignFails_fst cap s' p hfail', hfail'⟩

/-- A batch run over problems on which every assignment call is a no-op
leaves the state unchanged. -/
theorem processBatch_noop (cap : Nat) (s : DBState) (B : List Nat)
    (h : ∀ pid ∈ B, ∀ p, lookupProblem s pid = some p →
      p.status = ProblemStatus.pending → (assign_single_problem cap s p).1 = s) :
    processBatch cap s B = s := by
  induction B with
  | nil => rfl
  | cons pid rest ih =>
    have ihrest := ih (fun pid' hp' => h pid' (List.mem_cons_of_mem _ hp'))
    rcases hl : lookupProblem s pid with _ | p
    · simpa only [processBatch, hl] using ihrest
    · by_cases hst : p.status = ProblemStatus.pending
      · have hfst := h pid (List.mem_cons_self _ _) p hl hst
        simpa only [processBatch, hl, if_pos hst, hfst] using ihrest
      · simpa only [processBatch, hl, if_neg hst] using ihrest

/-- A batch covering property transported through the take-10 window when at
most ten problems are pending. -/
theorem mem_batch_of_pending (s : DBState) (hlen : (pendingProblems s).length ≤ 10)
    (p : Problem) (hp : p ∈ s.problems) (hpend : p.status = ProblemStatus.pending) :
    p.id ∈ ((sortByPriorityDesc (pendingProblems s)).take 10).map Problem.id := by
  have hmemp : p ∈ pendingProblems s := List.mem_filter.mpr ⟨hp, by simp [hpend]⟩
  have hsort : p ∈ sortByPriorityDesc (pendingProblems s) :=
    (mem_sortByPriorityDesc _ _).mpr hmemp
  rw [List.take_of_length_le (by rw [length_sortByPriorityDesc]; exact hlen)]
  exact List.mem_map_of_mem Problem.id hsort

/-- Under distinct keys, looking up the key of a member finds that member. -/
theorem find?_key_of_mem {α β : Type} [DecidableEq β] (f : α → β) (l : List α)
    (hn : (l.map f).Nodup) {a : α} (ha : a ∈ l) :
    l.find? (fun x => decide (f x = f a)) = some a := by
  induction l with
  | nil => simp at ha
  | cons x t ih =>
    simp only [List.map_cons, List.nodup_cons] at hn
    rcases List.mem_cons.mp ha with rfl | ha'
    · simp [List.find?]
    · have hne : f x ≠ f a := by
        intro hEq
        exact hn.1 (hEq ▸ List.mem_map_of_mem f ha')
      rw [List.find?_cons_of_neg _ (by simp [hne])]
      exact ih hn.2 ha'

/-- Every id of the orchestrator batch denotes a pending row, under distinct
problem ids. -/
theorem lookup_of_mem_batch (s : DBState) (hn : NodupProblemIds s) (pid : Nat)
    (h : pid ∈ ((sortByPriorityDesc (pendingProblems s)).take 10).map Problem.id) :
    ∃ p, lookupProblem s pid = some p ∧ p.status = ProblemStatus.pending := by
  rcases List.mem_map.mp h with ⟨p, hp, rfl⟩
  have hp2 : p ∈ sortByPriorityDesc (pendingProblems s) := List.mem_of_mem_take hp
  have hp3 : p ∈ pendingProblems s := (mem_sortByPriorityDesc _ _).mp hp2
  have hp4 := List.mem_filter.mp hp3
  refine ⟨p, ?_, by simpa using hp4.2⟩
  exact find?_key_of_mem Problem.id s.problems hn hp4.1

/-- Batch processing preserves any property preserved by every pending
single-problem assignment step. -/
theorem processBatch_preserves (cap : Nat) (P : DBState → Prop)
    (hstep : ∀ s pid p, P s → lookupProblem s pid = some p →
      p.status = ProblemStatus.pending → P (assign_single_problem cap s p).1) :
    ∀ B s, P s → P (processBatch cap s B) := by
  intro B
  induction B with
  | nil => intro s h; exact h
  | cons pid rest ih =>
    intro s h
    rcases hl : lookupProblem s pid with _ | p
    · rw [show processBatch cap s (pid :: rest) = processBatch cap s rest from by
        simp only [processBatch, hl]]
      exact ih s h
    · by_cases hst : p.status = ProblemStatus.pending
      · rw [show processBatch cap s (pid :: rest) =
            processBatch cap (assign_single_problem cap s p).1 rest from by
          simp only [processBatch, hl, if_pos hst]]
        exact ih _ (hstep s pid p h hl hst)
      · rw [show processBatch cap s (pid :: rest) = processBatch cap s rest from by
          simp only [processBatch, hl, if_neg hst]]
        exact ih s h

/-- A committed assignment preserves the worker-reference invariant. -/
theorem statusWorkerInv_applyAssignment (s : DBState) (p : Problem)
    (w : WorkerProfile) (h : statusWorkerInv s) :
    statusWorkerInv (applyAssignment s p w) := by
  intro q hq
  rcases List.mem_map.mp hq with ⟨q0, hq0, rfl⟩
  by_cases hid : q0.id = p.id
  · rw [if_pos (by simpa using hid)]
    intro _
    simp
  · rw [if_neg (by simpa using hid)]
    exact h q0 hq0

/-- One `assign_single_problem` call preserves the worker-reference
invariant. -/
theorem statusWorkerInv_assignStep (cap : Nat) (s : DBState) (p : Problem)
    (h : statusWorkerInv s) :
    statusWorkerInv (assign_single_problem cap s p).1 := by
  rcases assign_single_problem_cases cap s p with ⟨hfst, _⟩ |
    ⟨dept, w, u, r, _, _, _, _, heq⟩
  · rw [hfst]; exact h
  · rw [heq]; exact statusWorkerInv_applyAssignment s p w h

/-- The deactivation cascade preserves the worker-reference invariant. -/
theorem statusWorkerInv_deactivateCascade (s : DBState) (wpid : Nat)
    (h : statusWorkerInv s) :
    statusWorkerInv (deactivateCascade s wpid) := by
  intro q hq
  rcases List.mem_map.mp hq with ⟨q0, hq0, rfl⟩
  by_cases hl : linkedTask wpid q0 = true
  · rw [if_pos hl]
    intro habs
    simp at habs
  · rw [if_neg hl]
    exact h q0 hq0

/-- A committed reassignment preserves the worker-reference invariant. -/
theorem statusWorkerInv_applyReassign (s : DBState) (iid nwid : Nat)
    (h : statusWorkerInv s) :
    statusWorkerInv (applyReassign s iid nwid) := by
  intro q hq
  rcases List.mem_map.mp hq with ⟨q0, hq0, rfl⟩
  by_cases hid : q0.id = iid
  · rw [if_pos (by simpa using hid)]
    intro _
    simp
  · rw [if_neg (by simpa using hid)]
    exact h q0 hq0

/-- Shape of a successful `deactivate_worker` call: the cascade (when a
profile exists) followed by the inactive flag. -/
theorem deactivate_ok_cases (s : DBState) (admin : User) (wuid : Nat)
    (s' : DBState) (h : deactivate_worker s admin wuid = .ok s') :
    (∃ wu : User, s' = markInactive s wu.id) ∨
    (∃ (wu : User) (wp : WorkerProfile),
      oneOrNone (s.workers.filter (fun w => decide (w.user_id = wuid))) =
        .ok (some wp) ∧ s' = markInactive (deactivateCascade s wp.id) wu.id) := by
  unfold deactivate_worker at h
  rcases h0 : oneOrNone (s.users.filter (fun u =>
      decide (u.id = wuid) && decide (u.role = Role.worker) &&
        decide (u.district = admin.district))) with e | ou
  · rw [h0] at h
    exact absurd h (by simp)
  rcases ou with _ | wu
  · rw [h0] at h
    exact absurd h (by simp)
  rw [h0] at h
  rcases h1 : oneOrNone (s.workers.filter (fun w => decide (w.user_id = wuid))) with
    e | ow
  · rw [h1] at h
    exact absurd h (by simp)
  rcases ow with _ | wp
  · rw [h1] at h
    simp only [Except.ok.injEq] at h
    exact Or.inl ⟨wu, h.symm⟩
  · rw [h1] at h
    simp only [Except.ok.injEq] at h
    exact Or.inr ⟨wu, wp, h1, h.symm⟩

/-- Shape of the `reassign_issue_to_worker` result: an error, or the committed
single-field mutation. -/
theorem reassign_result (s : DBState) (admin : User) (iid nwid : Nat) :
    (∃ e, reassign_issue_to_worker s admin iid nwid = .error e) ∨
    reassign_issue_to_worker s admin iid nwid = .ok (applyReassign s iid nwid) := by
  unfold reassign_issue_to_worker
  rcases h0 : oneOrNone (s.problems.filter fun p => decide (p.id = iid)) with e | op
  · rw [h0]
    exact Or.inl ⟨_, rfl⟩
  rcases op with _ | issue
  · rw [h0]
    exact Or.inl ⟨_, rfl⟩
  rw [h0]
  dsimp only
  by_cases h1 : issue.district ≠ admin.district
  · rw [if_pos h1]
    exact Or.inl ⟨_, rfl⟩
  rw [if_neg h1]
  by_cases h2 : issue.status ≠ ProblemStatus.assigned
  · rw [if_pos h2]
    exact Or.inl ⟨_, rfl⟩
  rw [if_neg h2]
  rcases h3 : issue.assigned_worker_id with _ | cwid
  · try rw [h3]
    try dsimp only
    exact Or.inl ⟨_, rfl⟩
  try rw [h3]
  try dsimp only
  rcases h4 : oneOrNone (s.workers.filter fun w => decide (w.id = cwid)) with e | cwOpt
  · try rw [h4]
    try dsimp only
    exact Or.inl ⟨_, rfl⟩
  try rw [h4]
  try dsimp only
  rcases h5 : oneOrNone (s.workers.filter fun w => decide (w.id = nwid)) with e | onw
  · try rw [h5]
    try dsimp only
    exact Or.inl ⟨_, rfl⟩
  rcases onw with _ | nw
  · try rw [h5]
    try dsimp only
    exact Or.inl ⟨_, rfl⟩
  try rw [h5]
  try dsimp only
  rcases h6 : s.users.find? (fun u => decide (u.id = nw.user_id)) with _ | nu
  · try rw [h6]
    try dsimp only
    exact Or.inl ⟨_, rfl⟩
  try rw [h6]
  try dsimp only
  by_cases h7 : nu.district ≠ admin.district
  · rw [if_pos h7]
    exact Or.inl ⟨_, rfl⟩
  rw [if_neg h7]
  by_cases h8 : cwOpt.any (fun cw => decide (nw.department_id ≠ cw.department_id)) = true
  · rw [if_pos h8]
    exact Or.inl ⟨_, rfl⟩
  rw [if_neg h8]
  by_cases h9 : (!nu.is_active) = true
  · rw [if_pos h9]
    exact Or.inl ⟨_, rfl⟩
  rw [if_neg h9]
  by_cases h10 : nwid = cwid
  · rw [if_pos h10]
    exact Or.inl ⟨_, rfl⟩
  rw [if_neg h10]
  exact Or.inr rfl

/-- An id-preserving row map keeps the id column. -/
theorem map_id_pointwise (l : List Problem) (g : Problem → Problem)
    (hg : ∀ q, (g q).id = q.id) :
    (l.map g).map Problem.id = l.map Problem.id := by
  rw [List.map_map]
  apply List.map_congr_left
  intro q hq
  simp [Function.comp, hg]

/-- A committed assignment respects the cap: the chosen worker was strictly
below it and other workers' loads cannot grow. -/
theorem capInv_applyAssignment (cap : Nat) (s : DBState) (p : Problem)
    (dept : Department) (w : WorkerProfile)
    (hn : NodupProblemIds s) (hc : capInv cap s)
    (hfw : findWorker s dept.id p.district cap = some w) :
    capInv cap (applyAssignment s p w) := by
  intro w' hw'
  rcases List.mem_map.mp hw' with ⟨w0, hw0, rfl⟩
  have hid : (if decide (w0.id = w.id) = true
      then { w0 with daily_task_count := w0.daily_task_count + 1 } else w0).id = w0.id := by
    by_cases h : w0.id = w.id
    · simp [h]
    · simp [h]
  rw [show assignedCount (applyAssignment s p w)
      (if decide (w0.id = w.id) = true
        then { w0 with daily_task_count := w0.daily_task_count + 1 } else w0).id =
      assignedCount (applyAssignment s p w) w0.id from by rw [hid]]
  by_cases hw0id : w0.id = w.id
  · rw [hw0id]
    have hlt : assignedCount s w.id < cap :=
      ((workerPred_iff s dept.id p.district cap w).mp
        (findWorker_some_spec s dept.id p.district cap w hfw).2.1).2
    have hle := countAssigned_apply_self s p w hn
    unfold assignedCount at *
    omega
  · have hle := countAssigned_apply_other s p w w0.id hw0id
    have hcap := hc w0 hw0
    unfold assignedCount at *
    omega

/-- The deactivation cascade never raises any live load. -/
theorem capInv_deactivateCascade (cap : Nat) (s : DBState) (wpid : Nat)
    (hc : capInv cap s) : capInv cap (deactivateCascade s wpid) := by
  intro w' hw'
  rcases List.mem_map.mp hw' with ⟨w0, hw0, rfl⟩
  have hid : (if decide (w0.id = wpid) = true
      then { w0 with daily_task_count := 0 } else w0).id = w0.id := by
    by_cases h : w0.id = wpid
    · simp [h]
    · simp [h]
  rw [show assignedCount (deactivateCascade s wpid)
      (if decide (w0.id = wpid) = true
        then { w0 with daily_task_count := 0 } else w0).id =
      assignedCount (deactivateCascade s wpid) w0.id from by rw [hid]]
  have hmono : countAssigned (deactivateCascade s wpid).problems w0.id ≤
      countAssigned s.problems w0.id := by
    apply countP_map_le
    intro q hq hQ
    by_cases h : linkedTask wpid q = true
    · exfalso
      rw [if_pos h] at hQ
      simp [isActiveAssignment] at hQ
    · rw [if_neg h] at hQ
      exact hQ
  have hcap := hc w0 hw0
  unfold assignedCount at *
  omega

/-- The cap invariant together with distinct problem ids survives a whole
orchestrator run. -/
theorem capInv_trigger (cap : Nat) (s : DBState)
    (hn : NodupProblemIds s) (hc : capInv cap s) :
    NodupProblemIds (trigger_auto_assignment cap s) ∧
      capInv cap (trigger_auto_assignment cap s) := by
  refine processBatch_preserves cap (fun t => NodupProblemIds t ∧ capInv cap t)
    ?_ _ s ⟨hn, hc⟩
  intro t pid p h hl hst
  rcases assign_single_problem_cases cap t p with ⟨hfst, _⟩ |
    ⟨dept, w, u, r, hres, hfw, _, _, heq⟩
  · rw [hfst]
    exact h
  · rw [heq]
    have hmem : p ∈ t.problems := List.mem_of_find?_eq_some hl
    have hM := monoExt_applyAssignment t p w h.1 hmem hst
    exact ⟨nodup_of_monoExt hM h.1, capInv_applyAssignment cap t p dept w h.1 h.2 hfw⟩

/-- The cap invariant and distinct problem ids survive a successful worker
deactivation. -/
theorem capInv_deactivate (cap : Nat) (s s' : DBState) (admin : User) (wuid : Nat)
    (hn : NodupProblemIds s) (hc : capInv cap s)
    (h : deactivate_worker s admin wuid = .ok s') :
    NodupProblemIds s' ∧ capInv cap s' := by
  rcases deactivate_ok_cases s admin wuid s' h with ⟨wu, rfl⟩ | ⟨wu, wp, _, rfl⟩
  · exact ⟨hn, hc⟩
  · constructor
    · show ((s.problems.map _).map Problem.id).Nodup
      rw [map_id_pointwise s.problems _
        (fun q => by by_cases h : linkedTask wp.id q = true <;> simp [h])]
      exact hn
    · exact capInv_deactivateCascade cap s wp.id hc

/-- Distinct problem ids survive a successful reassignment. -/
theorem nodup_reassign (s s' : DBState) (admin : User) (iid nwid : Nat)
    (hn : NodupProblemIds s)
    (h : reassign_issue_to_worker s admin iid nwid = .ok s') :
    NodupProblemIds s' := by
  rcases reassign_result s admin iid nwid with ⟨e, he⟩ | hok
  · rw [he] at h
    exact absurd h (by simp)
  · rw [hok] at h
    injection h with h
    subst h
    show ((updateProblems s.problems iid _).map Problem.id).Nodup
    rw [map_id_updateProblems s.problems iid
      (fun p => { p with assigned_worker_id := some nwid }) (fun q => rfl)]
    exact hn

/-- The worker-reference invariant survives a whole orchestrator run. -/
theorem statusWorkerInv_trigger (cap : Nat) (s : DBState)
    (h : statusWorkerInv s) :
    statusWorkerInv (trigger_auto_assignment cap s) :=
  processBatch_preserves cap statusWorkerInv
    (fun t _ p ht _ _ => statusWorkerInv_assignStep cap t p ht) _ s h

/-- The worker-reference invariant survives a successful deactivation. -/
theorem statusWorkerInv_deactivate (s s' : DBState) (admin : User) (wuid : Nat)
    (hi : statusWorkerInv s) (h : deactivate_worker s admin wuid = .ok s') :
    statusWorkerInv s' := by
  rcases deactivate_ok_cases s admin wuid s' h with ⟨wu, rfl⟩ | ⟨wu, wp, _, rfl⟩
  · exact hi
  · exact statusWorkerInv_deactivateCascade s wp.id hi

/-- The worker-reference invariant survives a successful reassignment. -/
theorem statusWorkerInv_reassign (s s' : DBState) (admin : User) (iid nwid : Nat)
    (hi : statusWorkerInv s)
    (h : reassign_issue_to_worker s admin iid nwid = .ok s') :
    statusWorkerInv s' := by
  rcases reassign_result s admin iid nwid with ⟨e, he⟩ | hok
  · rw [he] at h
    exact absurd h (by simp)
  · rw [hok] at h
    injection h with h
    subst h
    exact statusWorkerInv_applyReassign s iid nwid hi

/-- C2: in every state reachable by the core operations (orchestrator
assignment, admin reassignment, worker deactivation) from a state satisfying
it, `status = ASSIGNED` implies a non-null `assigned_worker`: assignment sets
both fields together, deactivation clears the worker only while moving the
status back to `PENDING`, and reassignment swaps one non-null reference for
another. -/
theorem assigned_has_worker_invariant (cap : Nat) (s s' : DBState)
    (h0 : statusWorkerInv s) (h : Reachable cap s s') : statusWorkerInv s' := by
  induction h with
  | refl => exact h0
  | tail hr hstep ih =>
    cases hstep with
    | orch => exact statusWorkerInv_trigger cap _ ih
    | deact s' admin wuid hrole hok =>
      exact statusWorkerInv_deactivate _ _ admin wuid ih hok
    | reassign s' admin iid nwid hrole hok =>
      exact statusWorkerInv_reassign _ _ admin iid nwid ih hok

/-- Witness for C2 at a concrete input. -/
theorem assigned_has_worker_invariant_witness :
    statusWorkerInv (trigger_auto_assignment 3 emptyS) :=
  assigned_has_worker_invariant 3 emptyS _ (by decide)
    (Relation.ReflTransGen.single (CoreStep.orch emptyS))

/-- C3: the priority score equals `round(min(nearby/10, 1) * 10 * W_density +
urgency * W_urgency, 2)`, where the urgency is the static table entry for the
lower-cased type and 5 for unseen types; the density component saturates at
exactly 10 from ten nearby reports and vanishes at zero, and with default
weights 0.6/0.4, five nearby reports of type `"electrical"` (urgency 9) score
6.6. -/
theorem calculate_priority_score_spec (wd wu : ℚ) (n : Nat) (problem_type : String) :
    calculate_priority_score wd wu (.ok (some n)) problem_type =
        round2 (min ((n : ℚ) / 10) 1 * 10 * wd +
          (urgencyScore problem_type : ℚ) * wu) ∧
      (10 ≤ n → densityScore n = 10) ∧
      densityScore 0 = 0 ∧
      (lookupStr URGENCY_SCORES (lowerStr problem_type) = none →
        urgencyScore problem_type = 5) ∧
      calculate_priority_score PRIORITY_DENSITY_WEIGHT PRIORITY_URGENCY_WEIGHT
        (.ok (some 5)) "electrical" = 66 / 10 := by
  refine ⟨rfl, ?_, by norm_num [densityScore], ?_, ?_⟩
  · intro h
    unfold densityScore
    have h1 : (1 : ℚ) ≤ (n : ℚ) / 10 := by
      rw [le_div_iff₀ (by norm_num)]
      have : (10 : ℚ) ≤ (n : ℚ) := by exact_mod_cast h
      linarith
    rw [min_eq_right h1]
    norm_num
  · intro h
    unfold urgencyScore
    rw [h]
    rfl
  · show round2 (densityScore ((some 5 : Option Nat).getD 0) * PRIORITY_DENSITY_WEIGHT +
      (urgencyScore "electrical" : ℚ) * PRIORITY_URGENCY_WEIGHT) = 66 / 10
    have hu : urgencyScore "electrical" = 9 := by decide
    have hd : densityScore ((some 5 : Option Nat).getD 0) = 5 := by
      show densityScore 5 = 5
      unfold densityScore
      rw [min_eq_left (by norm_num)]
      norm_num
    rw [hu, hd]
    norm_num [round2, PRIORITY_DENSITY_WEIGHT, PRIORITY_URGENCY_WEIGHT]

/-- Witness for C3 at concrete inputs. -/
theorem calculate_priority_score_spec_witness :
    densityScore 12 = 10 ∧ urgencyScore "xyz-unknown" = 5 ∧
      calculate_priority_score PRIORITY_DENSITY_WEIGHT PRIORITY_URGENCY_WEIGHT
        (.ok (some 5)) "electrical" = 66 / 10 :=
  ⟨(calculate_priority_score_spec 0 0 12 "x").2.1 (by norm_num),
   (calculate_priority_score_spec 0 0 12 "xyz-unknown").2.2.2.1 (by decide),
   (calculate_priority_score_spec 0 0 12 "x").2.2.2.2⟩

/-- C4: the worker matcher returns a worker only if it is active, in the
department, owned by a user of the report's district, and its live
ASSIGNED-count — the aggregate `assignedCount` over the report rows, not the
`daily_task_count` column — is strictly below the cap and minimal among such
candidates; it returns `none` exactly when no worker satisfies all of the
conditions. -/
theorem findWorker_spec (s : DBState) (deptId : Nat) (district : String) (cap : Nat) :
    (∀ w, findWorker s deptId district cap = some w →
      w ∈ s.workers ∧ w.department_id = deptId ∧
        (∃ u, s.users.find? (fun u => decide (u.id = w.user_id)) = some u ∧
          u.district = district ∧ u.is_active = true) ∧
        assignedCount s w.id < cap ∧
        (∀ w' ∈ s.workers, isCandidate s.users deptId district w' = true →
          assignedCount s w'.id < cap →
          assignedCount s w.id ≤ assignedCount s w'.id)) ∧
    (findWorker s deptId district cap = none ↔
      ∀ w ∈ s.workers, ¬(isCandidate s.users deptId district w = true ∧
        assignedCount s w.id < cap)) := by
  constructor
  · intro w h
    obtain ⟨hmem, hpred, hmin⟩ := findWorker_some_spec s deptId district cap w h
    obtain ⟨hcand, hlt⟩ := (workerPred_iff s deptId district cap w).mp hpred
    have hcand' := hcand
    unfold isCandidate at hcand'
    rcases hfind : s.users.find? (fun u => decide (u.id = w.user_id)) with _ | u
    · rw [hfind] at hcand'
      simp at hcand'
    · rw [hfind] at hcand'
      simp only [Bool.and_eq_true, decide_eq_true_eq] at hcand'
      exact ⟨hmem, hcand'.1, ⟨u, hfind, hcand'.2.1, hcand'.2.2⟩, hlt,
        fun w' hw' hc hl =>
          hmin w' hw' ((workerPred_iff s deptId district cap w').mpr ⟨hc, hl⟩)⟩
  · rw [findWorker_none_iff]
    constructor
    · intro h w hw hcl
      exact h w hw ((workerPred_iff s deptId district cap w).mpr hcl)
    · intro h w hw hp
      exact h w hw ((workerPred_iff s deptId district cap w).mp hp)

/-- Witness for C4 at a concrete input. -/
theorem findWorker_spec_witness :
    (⟨1, 1, 1, 0⟩ : WorkerProfile) ∈ c4s.workers ∧ assignedCount c4s 1 < 3 := by
  have h := (findWorker_spec c4s 1 "d" 3).1 ⟨1, 1, 1, 0⟩ (by decide)
  exact ⟨h.1, h.2.2.2.1⟩

/-- C9: when the spatial query raises, `calculate_priority_score` returns the
urgency-only fallback `round(urgency * W_urgency, 2)` — using the same static
table — instead of propagating the exception; the fallback coincides with a
zero-density score, and with default weights an unseen type scores 2. -/
theorem priority_fallback_spec (wd wu : ℚ) (problem_type : String) (e : Unit) :
    calculate_priority_score wd wu (.error e) problem_type =
        round2 ((urgencyScore problem_type : ℚ) * wu) ∧
      calculate_priority_score wd wu (.error e) problem_type =
        calculate_priority_score wd wu (.ok (some 0)) problem_type ∧
      calculate_priority_score PRIORITY_DENSITY_WEIGHT PRIORITY_URGENCY_WEIGHT
        (.error ()) "xyz-unknown" = 2 := by
  refine ⟨rfl, ?_, ?_⟩
  · show round2 ((urgencyScore problem_type : ℚ) * wu) =
      round2 (densityScore ((some 0 : Option Nat).getD 0) * wd +
        (urgencyScore problem_type : ℚ) * wu)
    congr 1
    have h0 : densityScore ((some 0 : Option Nat).getD 0) = 0 := by
      show densityScore 0 = 0
      norm_num [densityScore]
    rw [h0]
    ring
  · show round2 ((urgencyScore "xyz-unknown" : ℚ) * PRIORITY_URGENCY_WEIGHT) = 2
    have hu : urgencyScore "xyz-unknown" = 5 := by decide
    rw [hu]
    norm_num [round2, PRIORITY_URGENCY_WEIGHT]

/-- A unique `scalar_one_or_none` row is a member of the underlying list. -/
theorem oneOrNone_some_mem {α : Type} (l : List α) (a : α)
    (h : oneOrNone l = .ok (some a)) : a ∈ l := by
  unfold oneOrNone at h
  rcases l with _ | ⟨x, tl⟩
  · simp at h
  · rcases tl with _ | ⟨y, tl2⟩
    · simp only [Except.ok.injEq, Option.some.injEq] at h
      simp [h]
    · simp at h

/-- C6: deactivating a worker resets every `PENDING`/`ASSIGNED` report linked
to that worker's profile to `PENDING` with no worker, zeroes the profile's
advisory daily counter, and sets the owning user inactive; reports in other
statuses or linked to other workers, and other worker rows, are carried over
unchanged. -/
theorem deactivate_worker_spec (s : DBState) (admin : User) (wuid : Nat)
    (s' : DBState) (wp : WorkerProfile)
    (hprof : oneOrNone (s.workers.filter (fun w => decide (w.user_id = wuid))) =
      .ok (some wp))
    (h : deactivate_worker s admin wuid = .ok s') :
    (∀ p ∈ s.problems,
      ((p.assigned_worker_id = some wp.id ∧
          (p.status = ProblemStatus.pending ∨ p.status = ProblemStatus.assigned)) →
        { p with assigned_worker_id := none, status := ProblemStatus.pending } ∈
          s'.problems) ∧
      (¬(p.assigned_worker_id = some wp.id ∧
          (p.status = ProblemStatus.pending ∨ p.status = ProblemStatus.assigned)) →
        p ∈ s'.problems)) ∧
    (∀ w ∈ s.workers, w.id = wp.id →
      { w with daily_task_count := 0 } ∈ s'.workers) ∧
    (∀ w ∈ s.workers, w.id ≠ wp.id → w ∈ s'.workers) ∧
    (∀ u ∈ s.users, u.id = wuid → { u with is_active := false } ∈ s'.users) := by
  unfold deactivate_worker at h
  rcases hu : oneOrNone (s.users.filter (fun u =>
      decide (u.id = wuid) && decide (u.role = Role.worker) &&
        decide (u.district = admin.district))) with e | ou
  · rw [hu] at h
    exact absurd h (by simp)
  rcases ou with _ | wu
  · rw [hu] at h
    exact absurd h (by simp)
  rw [hu, hprof] at h
  dsimp only at h
  simp only [Except.ok.injEq] at h
  subst h
  have hwuid : wu.id = wuid := by
    have hmem := oneOrNone_some_mem _ _ hu
    have := (List.mem_filter.mp hmem).2
    simp only [Bool.and_eq_true, decide_eq_true_eq] at this
    exact this.1.1
  refine ⟨?_, ?_, ?_, ?_⟩
  · intro p hp
    constructor
    · intro hcond
      have hlink : linkedTask wp.id p = true := by
        simp only [linkedTask, Bool.and_eq_true, Bool.or_eq_true, decide_eq_true_eq]
        exact ⟨hcond.1, hcond.2⟩
      have hmm := List.mem_map_of_mem (fun p =>
        if linkedTask wp.id p
        then { p with assigned_worker_id := none, status := ProblemStatus.pending }
        else p) hp
      dsimp only at hmm
      rw [if_pos hlink] at hmm
      exact hmm
    · intro hcond
      have hlink : ¬ linkedTask wp.id p = true := by
        simp only [linkedTask, Bool.and_eq_true, Bool.or_eq_true, decide_eq_true_eq]
        exact fun hc => hcond ⟨hc.1, hc.2⟩
      have hmm := List.mem_map_of_mem (fun p =>
        if linkedTask wp.id p
        then { p with assigned_worker_id := none, status := ProblemStatus.pending }
        else p) hp
      dsimp only at hmm
      rw [if_neg hlink] at hmm
      exact hmm
  · intro w hw hid
    have hmm := List.mem_map_of_mem (fun w =>
      if decide (w.id = wp.id) then { w with daily_task_count := 0 } else w) hw
    dsimp only at hmm
    rw [if_pos (by simpa using hid)] at hmm
    exact hmm
  · intro w hw hid
    have hmm := List.mem_map_of_mem (fun w =>
      if decide (w.id = wp.id) then { w with daily_task_count := 0 } else w) hw
    dsimp only at hmm
    rw [if_neg (by simpa using hid)] at hmm
    exact hmm
  · intro u hu' hid
    have hmm := List.mem_map_of_mem (fun u =>
      if decide (u.id = wu.id) then { u with is_active := false } else u) hu'
    dsimp only at hmm
    rw [if_pos (by simp [hid, hwuid])] at hmm
    exact hmm

/-- Witness for C6: deactivating the worker of `c6s` (2 `ASSIGNED` and one
`PENDING`-but-linked report) leaves all three reports `PENDING` and
unassigned, resets the counter and deactivates the user. -/
theorem deactivate_worker_spec_witness :
    (⟨1, "water", "d", 5, ProblemStatus.pending, 2, none⟩ : Problem) ∈ c6s'.problems ∧
    (⟨2, "water", "d", 4, ProblemStatus.pending, 2, none⟩ : Problem) ∈ c6s'.problems ∧
    (⟨3, "water", "d", 3, ProblemStatus.pending, 2, none⟩ : Problem) ∈ c6s'.problems ∧
    (⟨5, 2, 1, 0⟩ : WorkerProfile) ∈ c6s'.workers ∧
    (⟨2, "d", Role.worker, false⟩ : User) ∈ c6s'.users := by
  have h := deactivate_worker_spec c6s exAdmin 2 c6s' ⟨5, 2, 1, 7⟩ (by decide) (by decide)
  refine ⟨?_, ?_, ?_, ?_, ?_⟩
  · exact (h.1 ⟨1, "water", "d", 5, ProblemStatus.assigned, 2, some 5⟩
      (by decide)).1 (by decide)
  · exact (h.1 ⟨2, "water", "d", 4, ProblemStatus.assigned, 2, some 5⟩
      (by decide)).1 (by decide)
  · exact (h.1 ⟨3, "water", "d", 3, ProblemStatus.pending, 2, some 5⟩
      (by decide)).1 (by decide)
  · exact h.2.1 ⟨5, 2, 1, 7⟩ (by decide) rfl
  · exact h.2.2.2 ⟨2, "d", Role.worker, true⟩ (by decide) rfl

/-- C8: a report whose type resolves to no department — no synonym-table
entry, no exact name match, no case-insensitive substring match — makes
`assign_single_problem` return the `noDept` outcome carrying the attempted
mapping (which the source logs as a warning), with the state unchanged so the
report stays `PENDING` and unassigned, and the batch loop simply continues
with the remaining reports; no exception escapes. -/
theorem unresolved_type_spec (cap : Nat) (s : DBState) (p : Problem)
    (h : resolveDepartment s.departments p.problem_type = .ok none) :
    assign_single_problem cap s p = (s, .noDept (typeToDeptName p.problem_type)) ∧
    (∀ (rest : List Nat) (pid : Nat), lookupProblem s pid = some p →
      p.status = ProblemStatus.pending →
      processBatch cap s (pid :: rest) = processBatch cap s rest) ∧
    (lookupStr PROBLEM_TYPE_TO_DEPARTMENT (lowerStr p.problem_type) = none →
      s.departments.filter (fun d => decide (d.name = p.problem_type)) = [] →
      s.departments.filter (fun d => containsCI d.name p.problem_type) = [] →
      resolveDepartment s.departments p.problem_type = .ok none) := by
  have heq : assign_single_problem cap s p =
      (s, .noDept (typeToDeptName p.problem_type)) := by
    simp [assign_single_problem, h]
  refine ⟨heq, ?_, ?_⟩
  · intro rest pid hl hst
    simp only [processBatch, hl, if_pos hst, heq]
  · intro h1 h2 h3
    have hdn : typeToDeptName p.problem_type = p.problem_type := by
      unfold typeToDeptName
      rw [h1]
      rfl
    unfold resolveDepartment
    dsimp only
    rw [hdn, h2, h3]
    rfl

/-- Witness for C8 at a concrete input. -/
theorem unresolved_type_spec_witness :
    assign_single_problem 3 c8s
        ⟨1, "xyz-unknown-type", "d", 5, ProblemStatus.pending, 1, none⟩ =
      (c8s, .noDept "xyz-unknown-type") :=
  (unresolved_type_spec 3 c8s
    ⟨1, "xyz-unknown-type", "d", 5, ProblemStatus.pending, 1, none⟩ (by decide)).1

/-- C10: when the exact name lookup finds nothing and the fallback substring
lookup matches two or more departments, `scalar_one_or_none` raises, the
per-report handler catches it so `assign_single_problem` reports `dbError`
with the state unchanged (report still `PENDING`, no worker), and the batch
loop continues with the remaining reports. -/
theorem ambiguous_dept_spec (cap : Nat) (s : DBState) (p : Problem)
    (hexact : s.departments.filter
      (fun d => decide (d.name = typeToDeptName p.problem_type)) = [])
    (hmulti : 2 ≤ (s.departments.filter
      (fun d => containsCI d.name (typeToDeptName p.problem_type))).length) :
    resolveDepartment s.departments p.problem_type = .error () ∧
    assign_single_problem cap s p = (s, .dbError) ∧
    (∀ (rest : List Nat) (pid : Nat), lookupProblem s pid = some p →
      p.status = ProblemStatus.pending →
      processBatch cap s (pid :: rest) = processBatch cap s rest) := by
  have hres : resolveDepartment s.departments p.problem_type = .error () := by
    unfold resolveDepartment
    dsimp only
    rw [hexact]
    rcases hl : s.departments.filter
        (fun d => containsCI d.name (typeToDeptName p.problem_type)) with _ | ⟨a, tl⟩
    · rw [hl] at hmulti
      simp at hmulti
    · rcases tl with _ | ⟨b, tl2⟩
      · rw [hl] at hmulti
        simp at hmulti
      · rw [hl]
        rfl
  have heq : assign_single_problem cap s p = (s, .dbError) := by
    simp [assign_single_problem, hres]
  refine ⟨hres, heq, ?_⟩
  intro rest pid hl hst
  simp only [processBatch, hl, if_pos hst, heq]

/-- Witness for C10 at a concrete input: type `"Road"` is not in the synonym
table, matches no department exactly, and matches both `"Water Roads"` and
`"Roads East"` by substring. -/
theorem ambiguous_dept_spec_witness :
    assign_single_problem 3 c10s ⟨1, "Road", "d", 5, ProblemStatus.pending, 1, none⟩ =
      (c10s, .dbError) :=
  (ambiguous_dept_spec 3 c10s ⟨1, "Road", "d", 5, ProblemStatus.pending, 1, none⟩
    (by decide) (by decide)).2.1

/-- C7: with the issue in the admin's district, `ASSIGNED` and carrying a
current worker, and the new worker row and its user fetched, reassignment is
rejected with the matching descriptive error when the new worker is in
another district, in another department, inactive, or identical to the
current worker (checked in that order); the worker reference moves — with the
status staying `ASSIGNED` — only when all four validations pass.  An error
result carries no state, so a rejected call leaves the report untouched. -/
theorem reassign_issue_to_worker_spec (s : DBState) (admin : User)
    (iid nwid : Nat) (issue : Problem) (cwid : Nat)
    (cw nw : WorkerProfile) (nu : User)
    (hi : oneOrNone (s.problems.filter (fun p => decide (p.id = iid))) =
      .ok (some issue))
    (hdist : issue.district = admin.district)
    (hst : issue.status = ProblemStatus.assigned)
    (hcw : issue.assigned_worker_id = some cwid)
    (hcwf : oneOrNone (s.workers.filter (fun w => decide (w.id = cwid))) =
      .ok (some cw))
    (hnwf : oneOrNone (s.workers.filter (fun w => decide (w.id = nwid))) =
      .ok (some nw))
    (hnu : s.users.find? (fun u => decide (u.id = nw.user_id)) = some nu) :
    (nu.district ≠ admin.district →
      reassign_issue_to_worker s admin iid nwid = .error .workerWrongDistrict) ∧
    (nu.district = admin.district → nw.department_id ≠ cw.department_id →
      reassign_issue_to_worker s admin iid nwid = .error .wrongDepartment) ∧
    (nu.district = admin.district → nw.department_id = cw.department_id →
      nu.is_active = false →
      reassign_issue_to_worker s admin iid nwid = .error .workerInactive) ∧
    (nu.district = admin.district → nw.department_id = cw.department_id →
      nu.is_active = true → nwid = cwid →
      reassign_issue_to_worker s admin iid nwid = .error .sameWorker) ∧
    (nu.district = admin.district → nw.department_id = cw.department_id →
      nu.is_active = true → nwid ≠ cwid →
      reassign_issue_to_worker s admin iid nwid = .ok (applyReassign s iid nwid)) := by
  have hred : reassign_issue_to_worker s admin iid nwid =
      (if nu.district ≠ admin.district then .error .workerWrongDistrict
       else if (some cw).any (fun c => decide (nw.department_id ≠ c.department_id))
       then .error .wrongDepartment
       else if !nu.is_active then .error .workerInactive
       else if nwid = cwid then .error .sameWorker
       else .ok (applyReassign s iid nwid)) := by
    unfold reassign_issue_to_worker
    rw [hi]
    dsimp only
    rw [if_neg (by simp [hdist]), if_neg (by simp [hst]), hcw]
    dsimp only
    rw [hcwf]
    dsimp only
    rw [hnwf]
    dsimp only
    rw [hnu]
  refine ⟨?_, ?_, ?_, ?_, ?_⟩
  · intro hne
    rw [hred, if_pos hne]
  · intro hd hdept
    rw [hred, if_neg (by simp [hd]), if_pos (by simp [hdept])]
  · intro hd hdept ha
    rw [hred, if_neg (by simp [hd]), if_neg (by simp [hdept]),
      if_pos (by simp [ha])]
  · intro hd hdept ha hsame
    rw [hred, if_neg (by simp [hd]), if_neg (by simp [hdept]),
      if_neg (by simp [ha]), if_pos hsame]
  · intro hd hdept ha hne
    rw [hred, if_neg (by simp [hd]), if_neg (by simp [hdept]),
      if_neg (by simp [ha]), if_neg hne]

/-- Witness for C7: the success branch at a concrete input. -/
theorem reassign_issue_to_worker_spec_witness :
    reassign_issue_to_worker c7s exAdmin 1 2 = .ok (applyReassign c7s 1 2) :=
  (reassign_issue_to_worker_spec c7s exAdmin 1 2
      ⟨1, "water", "d", 5, ProblemStatus.assigned, 1, some 1⟩ 1
      ⟨1, 1, 1, 0⟩ ⟨2, 2, 1, 0⟩ ⟨2, "d", Role.worker, true⟩
      (by decide) rfl rfl rfl (by decide) (by decide) (by decide)).2.2.2.2
    rfl rfl rfl (by decide)

/-- C1 counterexample: starting from `c1s`, a state satisfying the cap
invariant at the default cap 3 (worker profile 1 holds exactly three live
`ASSIGNED` reports), the admin reassignment of report 4 onto worker profile 1
is accepted — it validates district, department, activity and distinctness
but never capacity — leaving worker 1 with four live assignments.  Hence the
capacity invariant is not preserved by the core operations. -/
theorem capInv_not_preserved :
    ¬ (∀ s s' : DBState, capInv MAX_DAILY_TASKS_PER_WORKER s →
        Reachable MAX_DAILY_TASKS_PER_WORKER s s' →
        capInv MAX_DAILY_TASKS_PER_WORKER s') := by
  intro h
  have hstep : CoreStep MAX_DAILY_TASKS_PER_WORKER c1s c1s' :=
    CoreStep.reassign c1s c1s' exAdmin 4 1 rfl (by decide)
  have hc := h c1s c1s' (by decide) (Relation.ReflTransGen.single hstep)
  have h4 : assignedCount c1s' 1 ≤ MAX_DAILY_TASKS_PER_WORKER :=
    hc ⟨1, 1, 1, 3⟩ (by decide)
  exact absurd h4 (by decide)

/-- C1 amended: restricted to orchestrator runs and worker deactivations —
the core paths other than admin reassignment — the cap invariant is
preserved from any state with distinct problem ids; the reassignment handler
itself checks activity, department, district and distinctness but not
capacity, as the counterexample shows. -/
theorem capInv_preserved_without_reassign (cap : Nat) (s s' : DBState)
    (hn : NodupProblemIds s) (hc : capInv cap s) (h : SafeReachable cap s s') :
    capInv cap s' := by
  have hgen : NodupProblemIds s' ∧ capInv cap s' := by
    induction h with
    | refl => exact ⟨hn, hc⟩
    | tail hr hstep ih =>
      cases hstep with
      | orch => exact capInv_trigger cap _ ih.1 ih.2
      | deact s'' admin wuid hrole hok =>
        exact capInv_deactivate cap _ _ admin wuid ih.1 ih.2 hok
  exact hgen.2

/-- Witness for C1 amended at a concrete input. -/
theorem capInv_preserved_without_reassign_witness :
    capInv 3 (trigger_auto_assignment 3 emptyS) :=
  capInv_preserved_without_reassign 3 emptyS _ (by decide) (by decide)
    (Relation.ReflTransGen.single (SafeStep.orch emptyS))

/-- C5 counterexample: in `c5s` eleven reports are pending, so the first
orchestrator run's ten-report batch leaves the lowest-priority report outside
the window; the first run assigns capacity away but leaves that report
`PENDING`, and the second run — with no reports created and no worker or
department changed in between — assigns it, a state change.  Running the
orchestrator twice is therefore not always a no-op on the second run. -/
theorem trigger_not_idempotent :
    ¬ (trigger_auto_assignment MAX_DAILY_TASKS_PER_WORKER
        (trigger_auto_assignment MAX_DAILY_TASKS_PER_WORKER c5s) =
      trigger_auto_assignment MAX_DAILY_TASKS_PER_WORKER c5s) := by
  decide

/-- C5 amended: when the first run's ten-report batch covers every pending
report (at most ten pending) and problem and user ids are distinct, running
the orchestrator twice in a row with nothing changed in between produces no
state change on the second run: every report assigned by the first run is no
longer `PENDING` and is skipped, and every report the first run left
`PENDING` fails again for the same reason (departments unchanged, loads never
lower). -/
theorem trigger_idempotent_of_batch_covers (cap : Nat) (s : DBState)
    (hnp : NodupProblemIds s) (hnu : NodupUserIds s)
    (hlen : (pendingProblems s).length ≤ 10) :
    trigger_auto_assignment cap (trigger_auto_assignment cap s) =
      trigger_auto_assignment cap s := by
  obtain ⟨hM, hspec⟩ := processBatch_spec cap
    (((sortByPriorityDesc (pendingProblems s)).take 10).map Problem.id) s hnp
  have hM' : MonoExt s (trigger_auto_assignment cap s) := hM
  show processBatch cap (trigger_auto_assignment cap s)
      (((sortByPriorityDesc (pendingProblems (trigger_auto_assignment cap s))).take
        10).map Problem.id) = trigger_auto_assignment cap s
  apply processBatch_noop
  intro pid hpid p hlook hpend
  have hback : lookupProblem s pid = some p := hM'.pending_back pid p hlook hpend
  have hmem : p ∈ s.problems := List.mem_of_find?_eq_some hback
  have hbatch : p.id ∈
      ((sortByPriorityDesc (pendingProblems s)).take 10).map Problem.id :=
    mem_batch_of_pending s hlen p hmem hpend
  have hpid_eq : p.id = pid := by simpa using List.find?_some hback
  obtain ⟨t, hMt, htu, htfail⟩ := hspec pid (hpid_eq ▸ hbatch) p hlook hpend
  have hnut : NodupUserIds t := by
    unfold NodupUserIds at *
    rw [htu]
    exact hnu
  have hMt' : MonoExt t (trigger_auto_assignment cap s) := hMt
  exact (assignFails_transfer cap p hMt' hnut htfail).1

/-- Witness for C5 amended at a concrete input. -/
theorem trigger_idempotent_of_batch_covers_witness :
    trigger_auto_assignment 3 (trigger_auto_assignment 3 c4s) =
      trigger_auto_assignment 3 c4s :=
  trigger_idempotent_of_batch_covers 3 c4s (by decide) (by decide) (by decide)

end SmartHaryana
